import Mathlib

/-!
Verification of the Perfolizer load-generation engine against its
natural-language specification.  The Go sources are shallowly embedded:
Go strings are lists of characters (all characters relevant to the
scanning code are ASCII, where byte = character), Go `map` values are
association lists looked up by first match, Go `float64` values that are
merely carried (never rounded) are rationals, Go `int`/`int64` are `Int`,
and `time.Duration` is an `Int` count of nanoseconds.
-/

namespace Perfolizer

/-! ## Variable substitution (pkg/core/context.go) -/

/-- Go strings viewed as lists of characters. -/
abbrev GoStr := List Char

/-- First-match lookup in an association list, modelling a Go map read. -/
def lookupVar (vars : List (GoStr × GoStr)) (key : GoStr) : Option GoStr :=
  match vars with
  | [] => none
  | (k, v) :: rest => if k = key then some v else lookupVar rest key

/-- containsVar from pkg/core/context.go: scans positions `i` with
`i < len(s)-3` for a `$` immediately followed by an opening brace.  At the
suffix `c :: rest` (position `i`) the bound `i + 3 < len s` is exactly
`3 ≤ rest.length`. -/
def containsVar : GoStr → Bool
  | [] => false
  | c :: rest =>
    if rest.length < 3 then false
    else if c = '$' && rest.head? = some '\x7b' then true
    else containsVar rest

/-- The inner search of expandVariables: find the first closing brace,
returning the characters before it and the remainder after it. -/
def splitAtClose : GoStr → Option (GoStr × GoStr)
  | [] => none
  | c :: rest =>
    if c = '\x7d' then some ([], rest)
    else
      match splitAtClose rest with
      | some (k, a) => some (c :: k, a)
      | none => none

theorem splitAtClose_length {l k a : GoStr} (h : splitAtClose l = some (k, a)) :
    a.length < l.length := by
  induction l generalizing k a with
  | nil => simp [splitAtClose] at h
  | cons c rest ih =>
    by_cases hc : c = '\x7d'
    · simp [splitAtClose, hc] at h
      obtain ⟨hk, ha⟩ := h
      subst ha
      simp only [List.length_cons]
      omega
    · simp only [splitAtClose, if_neg hc] at h
      cases hsp : splitAtClose rest with
      | none => rw [hsp] at h; simp at h
      | some p =>
        rw [hsp] at h
        cases p with
        | mk k0 a0 =>
          simp at h
          have := ih (k := k0) (a := a0) hsp
          simp [← h.2]
          omega

/-- expandVariables from pkg/core/context.go.  At a position holding `$`
followed by an opening brace with at least three further characters
(`i < len(s)-3` in the Go loop), the first closing brace is searched from
two characters on; a bound key is replaced by its value and scanning
resumes after the closing brace, otherwise the current character is
copied and scanning resumes at the next position. -/
def expandVariables (vars : List (GoStr × GoStr)) : GoStr → GoStr
  | [] => []
  | c :: rest =>
    if c = '$' ∧ rest.head? = some '\x7b' ∧ 3 ≤ rest.length then
      match h : splitAtClose rest.tail with
      | some (key, after) =>
        match lookupVar vars key with
        | some v => v ++ expandVariables vars after
        | none => c :: expandVariables vars rest
      | none => c :: expandVariables vars rest
    else c :: expandVariables vars rest
termination_by s => s.length
decreasing_by
  · have hlt := splitAtClose_length h
    have : rest.tail.length ≤ rest.length := by
      cases rest <;> simp
    simp only [List.length_cons]
    omega
  · simp only [List.length_cons]; omega
  · simp only [List.length_cons]; omega
  · simp only [List.length_cons]; omega

/-- Context.Substitute from pkg/core/context.go: empty text short-circuits,
a text without a scannable variable reference is returned unchanged,
otherwise variables are expanded. -/
def Substitute (vars : List (GoStr × GoStr)) (text : GoStr) : GoStr :=
  if text = [] then []
  else if containsVar text then expandVariables vars text
  else text

/-- Modelled from the spec: purely lexical substitution.  Each `$` followed
by an opening brace and a later closing brace names a variable; a bound
name is replaced by its stringified value (inserted verbatim, never
re-expanded) and scanning resumes after the closing brace; a missing
variable or an unterminated reference leaves the characters in place and
scanning resumes at the next character.  This spec-level function has no
counterpart of the scanner's `i < len(s)-3` length guard. -/
def specSubstitute (vars : List (GoStr × GoStr)) : GoStr → GoStr
  | [] => []
  | c :: rest =>
    if c = '$' ∧ rest.head? = some '\x7b' then
      match h : splitAtClose rest.tail with
      | some (key, after) =>
        match lookupVar vars key with
        | some v => v ++ specSubstitute vars after
        | none => c :: specSubstitute vars rest
      | none => c :: specSubstitute vars rest
    else c :: specSubstitute vars rest
termination_by s => s.length
decreasing_by
  · have hlt := splitAtClose_length h
    have : rest.tail.length ≤ rest.length := by
      cases rest <;> simp
    simp only [List.length_cons]
    omega
  · simp only [List.length_cons]; omega
  · simp only [List.length_cons]; omega
  · simp only [List.length_cons]; omega

/-- Whether the two-character sequence `${` occurs anywhere in the text. -/
def containsDollarBrace : GoStr → Bool
  | [] => false
  | c :: rest => (c = '$' && rest.head? = some '\x7b') || containsDollarBrace rest

/-- Whether every occurrence of `${` in the text lacks a closing brace
after it. -/
def allOpensUnterminated : GoStr → Bool
  | [] => true
  | c :: rest =>
    (if c = '$' && rest.head? = some '\x7b' then !(rest.contains '\x7d') else true)
      && allOpensUnterminated rest

/-! ## Plan model and DTO codec (pkg/core/persistence.go, pkg/elements) -/

/-- Go dynamic values (`interface{}`) as they occur in element property
maps: strings, `int`, `int64`, `float64` (a rational, since the codec only
carries these values and never rounds them), booleans, `[]string`,
`[]interface{}`, `[]map[string]interface{}` and `map[string]interface{}`.
The distinct constructors for `int`, `int64`, `[]string` and
`[]map[string]interface{}` matter because Go type assertions are exact. -/
inductive GoVal where
  | vNull
  | vStr (s : String)
  | vInt (n : Int)
  | vInt64 (n : Int)
  | vFloat (q : Rat)
  | vBool (b : Bool)
  | vStrSlice (xs : List String)
  | vSlice (xs : List GoVal)
  | vMapSlice (xs : List (List (String × GoVal)))
  | vMap (kvs : List (String × GoVal))

/-- First-match lookup in an association list, modelling a Go map read. -/
def mapLookup {β : Type} (m : List (String × β)) (key : String) : Option β :=
  match m with
  | [] => none
  | (k, v) :: rest => if k = key then some v else mapLookup rest key

/-- Go `int(f)` conversion of a float64: truncation toward zero. -/
def ratToGoInt (q : Rat) : Int := Int.tdiv q.num q.den

/-- time.Duration.Milliseconds(): nanoseconds divided by 10^6, Go integer
division truncating toward zero. -/
def durationMilliseconds (ns : Int) : Int := Int.tdiv ns 1000000

/-- GetString from pkg/core/persistence.go. -/
def GetString (props : List (String × GoVal)) (key : String) (dflt : String) : String :=
  match mapLookup props key with
  | some (.vStr s) => s
  | _ => dflt

/-- GetInt from pkg/core/persistence.go: accepts `float64` (converted by
`int(f)`) and `int`; every other dynamic type, `int64` included, falls
through to the default. -/
def GetInt (props : List (String × GoVal)) (key : String) (dflt : Int) : Int :=
  match mapLookup props key with
  | some (.vFloat q) => ratToGoInt q
  | some (.vInt n) => n
  | _ => dflt

/-- GetFloat from pkg/core/persistence.go: accepts `float64` and `int`. -/
def GetFloat (props : List (String × GoVal)) (key : String) (dflt : Rat) : Rat :=
  match mapLookup props key with
  | some (.vFloat q) => q
  | some (.vInt n) => (n : Rat)
  | _ => dflt

/-- The collection loop of GetStringSlice: keeps the elements that are
strings, skipping the rest. -/
def collectStrings : List GoVal → List String
  | [] => []
  | .vStr s :: rest => s :: collectStrings rest
  | _ :: rest => collectStrings rest

/-- GetStringSlice from pkg/core/persistence.go: accepts `[]interface{}`
(keeping only string elements) and `[]string`. -/
def GetStringSlice (props : List (String × GoVal)) (key : String) : List String :=
  match mapLookup props key with
  | some (.vSlice xs) => collectStrings xs
  | some (.vStrSlice xs) => xs
  | _ => []

/-- RPSProfileBlock from pkg/elements/threadgroups.go; durations in
nanoseconds. -/
structure RPSProfileBlock where
  rampUpNs : Int
  stepDurationNs : Int
  profilePercent : Rat
  deriving DecidableEq

/-- The test-plan element tree.  One constructor per concrete Go element
type; each carries the BaseElement data (id, name, enabled, children) and
the type-specific fields.  The `enabled` flag (default true) is modelled
from the spec: the BaseElement getter and setter are not under src/, only
their callers are. -/
inductive Elem where
  | testPlan (id name : String) (enabled : Bool) (children : List Elem)
  | simpleThreadGroup (id name : String) (enabled : Bool)
      (users iterations rampUpNs : Int) (children : List Elem)
  | rpsThreadGroup (id name : String) (enabled : Bool) (users : Int)
      (rps : Rat) (blocks : List RPSProfileBlock) (gracefulShutdownNs : Int)
      (children : List Elem)
  | httpSampler (id name : String) (enabled : Bool) (url method body : String)
      (targetRPS : Rat) (extractVars : List String) (children : List Elem)
  | loopController (id name : String) (enabled : Bool) (loops : Int)
      (children : List Elem)
  | ifController (id name : String) (enabled : Bool) (children : List Elem)
  | pauseController (id name : String) (enabled : Bool) (durationNs : Int)
      (children : List Elem)

/-- Element id (BaseElement.ID). -/
def Elem.elemId : Elem → String
  | .testPlan i _ _ _ => i
  | .simpleThreadGroup i _ _ _ _ _ _ => i
  | .rpsThreadGroup i _ _ _ _ _ _ _ => i
  | .httpSampler i _ _ _ _ _ _ _ _ => i
  | .loopController i _ _ _ _ => i
  | .ifController i _ _ _ => i
  | .pauseController i _ _ _ _ => i

/-- Element name (BaseElement.Name). -/
def Elem.elemName : Elem → String
  | .testPlan _ n _ _ => n
  | .simpleThreadGroup _ n _ _ _ _ _ => n
  | .rpsThreadGroup _ n _ _ _ _ _ _ => n
  | .httpSampler _ n _ _ _ _ _ _ _ => n
  | .loopController _ n _ _ _ => n
  | .ifController _ n _ _ => n
  | .pauseController _ n _ _ _ => n

/-- Element enabled flag (BaseElement.Enabled, modelled from the spec). -/
def Elem.isEnabled : Elem → Bool
  | .testPlan _ _ e _ => e
  | .simpleThreadGroup _ _ e _ _ _ _ => e
  | .rpsThreadGroup _ _ e _ _ _ _ _ => e
  | .httpSampler _ _ e _ _ _ _ _ _ => e
  | .loopController _ _ e _ _ => e
  | .ifController _ _ e _ => e
  | .pauseController _ _ e _ _ => e

/-- Element children (BaseElement.GetChildren). -/
def Elem.childList : Elem → List Elem
  | .testPlan _ _ _ cs => cs
  | .simpleThreadGroup _ _ _ _ _ _ cs => cs
  | .rpsThreadGroup _ _ _ _ _ _ _ cs => cs
  | .httpSampler _ _ _ _ _ _ _ _ cs => cs
  | .loopController _ _ _ _ cs => cs
  | .ifController _ _ _ cs => cs
  | .pauseController _ _ _ _ cs => cs

/-- BaseElement.SetID. -/
def Elem.setID : Elem → String → Elem
  | .testPlan _ n e cs, i => .testPlan i n e cs
  | .simpleThreadGroup _ n e u it r cs, i => .simpleThreadGroup i n e u it r cs
  | .rpsThreadGroup _ n e u q b g cs, i => .rpsThreadGroup i n e u q b g cs
  | .httpSampler _ n e url m bd t x cs, i => .httpSampler i n e url m bd t x cs
  | .loopController _ n e l cs, i => .loopController i n e l cs
  | .ifController _ n e cs, i => .ifController i n e cs
  | .pauseController _ n e d cs, i => .pauseController i n e d cs

/-- BaseElement.SetEnabled (modelled from the spec, as for the getter). -/
def Elem.setEnabled : Elem → Bool → Elem
  | .testPlan i n _ cs, e => .testPlan i n e cs
  | .simpleThreadGroup i n _ u it r cs, e => .simpleThreadGroup i n e u it r cs
  | .rpsThreadGroup i n _ u q b g cs, e => .rpsThreadGroup i n e u q b g cs
  | .httpSampler i n _ url m bd t x cs, e => .httpSampler i n e url m bd t x cs
  | .loopController i n _ l cs, e => .loopController i n e l cs
  | .ifController i n _ cs, e => .ifController i n e cs
  | .pauseController i n _ d cs, e => .pauseController i n e d cs

/-- Repeated BaseElement.AddChild: appends the given children in order. -/
def Elem.appendChildren : Elem → List Elem → Elem
  | .testPlan i n e cs, cs2 => .testPlan i n e (cs ++ cs2)
  | .simpleThreadGroup i n e u it r cs, cs2 => .simpleThreadGroup i n e u it r (cs ++ cs2)
  | .rpsThreadGroup i n e u q b g cs, cs2 => .rpsThreadGroup i n e u q b g (cs ++ cs2)
  | .httpSampler i n e url m bd t x cs, cs2 => .httpSampler i n e url m bd t x (cs ++ cs2)
  | .loopController i n e l cs, cs2 => .loopController i n e l (cs ++ cs2)
  | .ifController i n e cs, cs2 => .ifController i n e (cs ++ cs2)
  | .pauseController i n e d cs, cs2 => .pauseController i n e d (cs ++ cs2)

/-- GenerateID is time-based in the source (prefix "id_" plus a
timestamp); the timestamp is not modelled.  No theorem depends on this
value: every statement about ids assumes the serialized id is nonempty, in
which case fromDTO overwrites the generated id. -/
def GenerateID : String := "id_"

/-- The property map of one profile block inside RPSThreadGroup.GetProps:
millisecond durations are `int64` values, the percent is a `float64`. -/
def rpsBlockProps (b : RPSProfileBlock) : List (String × GoVal) :=
  [("RampUpMS", .vInt64 (durationMilliseconds b.rampUpNs)),
   ("StepDurationMS", .vInt64 (durationMilliseconds b.stepDurationNs)),
   ("ProfilePercent", .vFloat b.profilePercent)]

/-- GetProps of each Serializable element (pkg/elements); the plan root is
not Serializable and toDTO uses an empty property map for it. -/
def Elem.getProps : Elem → List (String × GoVal)
  | .testPlan _ _ _ _ => []
  | .simpleThreadGroup _ _ _ u it _ _ =>
      [("Users", .vInt u), ("Iterations", .vInt it)]
  | .rpsThreadGroup _ _ _ u q b g _ =>
      [("Users", .vInt u), ("RPS", .vFloat q),
       ("ProfileBlocks", .vMapSlice (b.map rpsBlockProps)),
       ("GracefulShutdownMS", .vInt64 (durationMilliseconds g))]
  | .httpSampler _ _ _ url m bd t x _ =>
      [("Url", .vStr url), ("Method", .vStr m), ("TargetRPS", .vFloat t),
       ("ExtractVars", .vStrSlice x), ("Body", .vStr bd)]
  | .loopController _ _ _ l _ => [("Loops", .vInt l)]
  | .ifController _ _ _ _ => []
  | .pauseController _ _ _ d _ =>
      [("DurationMS", .vInt64 (durationMilliseconds d))]

/-- GetType of each Serializable element; the plan root falls back to
"TestPlan" in toDTO. -/
def Elem.typeTag : Elem → String
  | .testPlan _ _ _ _ => "TestPlan"
  | .simpleThreadGroup _ _ _ _ _ _ _ => "SimpleThreadGroup"
  | .rpsThreadGroup _ _ _ _ _ _ _ _ => "RPSThreadGroup"
  | .httpSampler _ _ _ _ _ _ _ _ _ => "HttpSampler"
  | .loopController _ _ _ _ _ => "LoopController"
  | .ifController _ _ _ _ => "IfController"
  | .pauseController _ _ _ _ _ => "PauseController"

/-- TestElementDTO from pkg/core/persistence.go: `{type, id, name,
enabled (pointer, nil = omitted), props, children}`. -/
inductive TestElementDTO where
  | mk (typeTag id name : String) (enabled : Option Bool)
      (props : List (String × GoVal)) (children : List TestElementDTO)

def TestElementDTO.dtoType : TestElementDTO → String
  | .mk t _ _ _ _ _ => t

def TestElementDTO.dtoId : TestElementDTO → String
  | .mk _ i _ _ _ _ => i

def TestElementDTO.dtoName : TestElementDTO → String
  | .mk _ _ n _ _ _ => n

def TestElementDTO.dtoEnabled : TestElementDTO → Option Bool
  | .mk _ _ _ e _ _ => e

def TestElementDTO.dtoProps : TestElementDTO → List (String × GoVal)
  | .mk _ _ _ _ p _ => p

def TestElementDTO.dtoChildren : TestElementDTO → List TestElementDTO
  | .mk _ _ _ _ _ cs => cs

mutual

/-- toDTO from pkg/core/persistence.go: type and props come from the
Serializable capability (the plan root uses "TestPlan" and empty props),
the enabled pointer is always set to the element's flag, children are
converted recursively in order. -/
def toDTO : Elem → TestElementDTO
  | .testPlan i n e cs =>
      .mk "TestPlan" i n (some e) [] (toDTOList cs)
  | .simpleThreadGroup i n e u it r cs =>
      .mk "SimpleThreadGroup" i n (some e)
        ((Elem.simpleThreadGroup i n e u it r []).getProps) (toDTOList cs)
  | .rpsThreadGroup i n e u q b g cs =>
      .mk "RPSThreadGroup" i n (some e)
        ((Elem.rpsThreadGroup i n e u q b g []).getProps) (toDTOList cs)
  | .httpSampler i n e url m bd t x cs =>
      .mk "HttpSampler" i n (some e)
        ((Elem.httpSampler i n e url m bd t x []).getProps) (toDTOList cs)
  | .loopController i n e l cs =>
      .mk "LoopController" i n (some e)
        ((Elem.loopController i n e l []).getProps) (toDTOList cs)
  | .ifController i n e cs =>
      .mk "IfController" i n (some e)
        ((Elem.ifController i n e []).getProps) (toDTOList cs)
  | .pauseController i n e d cs =>
      .mk "PauseController" i n (some e)
        ((Elem.pauseController i n e d []).getProps) (toDTOList cs)

def toDTOList : List Elem → List TestElementDTO
  | [] => []
  | e :: es => toDTO e :: toDTOList es

end

/-- Elements inside `[]interface{}` that are `map[string]interface{}`
become blocks; others are skipped (the loop of parseRPSProfileBlocks). -/
def parseBlockItems : List GoVal → List RPSProfileBlock
  | [] => []
  | .vMap m :: rest =>
      ⟨GetInt m "RampUpMS" 0 * 1000000, GetInt m "StepDurationMS" 0 * 1000000,
       GetFloat m "ProfilePercent" 100⟩ :: parseBlockItems rest
  | _ :: rest => parseBlockItems rest

/-- parseRPSProfileBlocks from pkg/elements/threadgroups.go: a missing (or
nil) ProfileBlocks property falls back to the legacy DurationMS; a value
that is not `[]interface{}` (in particular the `[]map[string]interface{}`
produced by GetProps) yields nil. -/
def parseRPSProfileBlocks (props : List (String × GoVal)) : List RPSProfileBlock :=
  match mapLookup props "ProfileBlocks" with
  | none | some .vNull =>
      let legacyNs := GetInt props "DurationMS" 0 * 1000000
      if legacyNs > 0 then [⟨0, legacyNs, 100⟩] else []
  | some (.vSlice items) => parseBlockItems items
  | some _ => []

/-- Whether a factory is registered for the type tag (the init()
registrations in pkg/elements). -/
def hasFactory (t : String) : Bool :=
  t = "SimpleThreadGroup" || t = "RPSThreadGroup" || t = "HttpSampler" ||
    t = "LoopController" || t = "IfController" || t = "PauseController"

/-- Whether the element is a plain root (a bare BaseElement, as built for
the "TestPlan" tag). -/
def Elem.isTestPlanRoot : Elem → Bool
  | .testPlan _ _ _ _ => true
  | _ => false

/-- The registered factories (the init() closures in pkg/elements): each
builds a fresh element from the DTO name and property map, children empty,
id freshly generated, enabled true. -/
def factoryApply (t name : String) (props : List (String × GoVal)) : Option Elem :=
  if t = "SimpleThreadGroup" then
    some (.simpleThreadGroup GenerateID name true
      (GetInt props "Users" 1) (GetInt props "Iterations" 1) 0 [])
  else if t = "RPSThreadGroup" then
    some (.rpsThreadGroup GenerateID name true
      (GetInt props "Users" 10) (GetFloat props "RPS" 10)
      (parseRPSProfileBlocks props)
      (GetInt props "GracefulShutdownMS" 0 * 1000000) [])
  else if t = "HttpSampler" then
    some (.httpSampler GenerateID name true
      (GetString props "Url" "http://localhost") (GetString props "Method" "GET")
      (GetString props "Body" "") (GetFloat props "TargetRPS" 0)
      (GetStringSlice props "ExtractVars") [])
  else if t = "LoopController" then
    some (.loopController GenerateID name true (GetInt props "Loops" 1) [])
  else if t = "IfController" then
    some (.ifController GenerateID name true [])
  else if t = "PauseController" then
    some (.pauseController GenerateID name true
      (GetInt props "DurationMS" 1000 * 1000000) [])
  else none

/-- The id/enabled restoration steps of fromDTO followed by loadChildren:
a nonempty DTO id overwrites the generated id, a present enabled pointer
overwrites the flag, and the already-constructed children are attached in
order. -/
def applyMeta (e : Elem) (i : String) (en : Option Bool) (cs : List Elem) : Elem :=
  let e1 := if i = "" then e else e.setID i
  let e2 := match en with
    | some b => e1.setEnabled b
    | none => e1
  e2.appendChildren cs

mutual

/-- fromDTO from pkg/core/persistence.go: look up a factory for the type
tag; with no factory, a "TestPlan" tag builds a plain root and any other
tag fails; then restore id and enabled and attach the children built by
loadChildren. -/
def fromDTO : TestElementDTO → Except String Elem
  | .mk t i n en props cs =>
      match factoryApply t n props with
      | some e0 => .ok (applyMeta e0 i en (loadChildrenList cs))
      | none =>
          if t = "TestPlan" then
            .ok (applyMeta (.testPlan GenerateID n true []) i en (loadChildrenList cs))
          else .error ("unknown element type: " ++ t)

/-- loadChildren from pkg/core/persistence.go: children whose construction
fails are skipped silently; successful children keep their order. -/
def loadChildrenList : List TestElementDTO → List Elem
  | [] => []
  | c :: cs =>
      match fromDTO c with
      | .ok e => e :: loadChildrenList cs
      | .error _ => loadChildrenList cs

end

mutual

/-- Models one Go encoding/json marshal/unmarshal round trip of a dynamic
property value, as happens to every plan DTO sent over the wire: `int` and
`int64` decode as `float64`; finite `float64` values survive exactly (Go
emits a shortest decimal that decodes to the same value); `[]string` and
`[]map[string]interface{}` decode as `[]interface{}`. -/
def jsonNormalize : GoVal → GoVal
  | .vNull => .vNull
  | .vStr s => .vStr s
  | .vInt n => .vFloat (n : Rat)
  | .vInt64 n => .vFloat (n : Rat)
  | .vFloat q => .vFloat q
  | .vBool b => .vBool b
  | .vStrSlice xs => .vSlice (xs.map GoVal.vStr)
  | .vSlice xs => .vSlice (jsonNormalizeList xs)
  | .vMapSlice ms => .vSlice (jsonNormalizeMapSlice ms)
  | .vMap kvs => .vMap (jsonNormalizeKVs kvs)

def jsonNormalizeList : List GoVal → List GoVal
  | [] => []
  | v :: rest => jsonNormalize v :: jsonNormalizeList rest

def jsonNormalizeMapSlice : List (List (String × GoVal)) → List GoVal
  | [] => []
  | m :: rest => .vMap (jsonNormalizeKVs m) :: jsonNormalizeMapSlice rest

def jsonNormalizeKVs : List (String × GoVal) → List (String × GoVal)
  | [] => []
  | (k, v) :: rest => (k, jsonNormalize v) :: jsonNormalizeKVs rest

end

mutual

/-- A DTO after one JSON encode/decode round trip: the structural fields
are typed in Go and survive unchanged (the enabled pointer is kept:
omitempty omits only a nil pointer); property values are normalized. -/
def jsonNormalizeDTO : TestElementDTO → TestElementDTO
  | .mk t i n en props cs =>
      .mk t i n en (jsonNormalizeKVs props) (jsonNormalizeDTOList cs)

def jsonNormalizeDTOList : List TestElementDTO → List TestElementDTO
  | [] => []
  | c :: cs => jsonNormalizeDTO c :: jsonNormalizeDTOList cs

end

mutual

/-- All ids in a tree are nonempty (so fromDTO restores them verbatim). -/
def idsNonempty : Elem → Bool
  | .testPlan i _ _ cs => (i ≠ "" : Bool) && idsNonemptyList cs
  | .simpleThreadGroup i _ _ _ _ _ cs => (i ≠ "" : Bool) && idsNonemptyList cs
  | .rpsThreadGroup i _ _ _ _ _ _ cs => (i ≠ "" : Bool) && idsNonemptyList cs
  | .httpSampler i _ _ _ _ _ _ _ cs => (i ≠ "" : Bool) && idsNonemptyList cs
  | .loopController i _ _ _ cs => (i ≠ "" : Bool) && idsNonemptyList cs
  | .ifController i _ _ cs => (i ≠ "" : Bool) && idsNonemptyList cs
  | .pauseController i _ _ _ cs => (i ≠ "" : Bool) && idsNonemptyList cs

def idsNonemptyList : List Elem → Bool
  | [] => true
  | e :: es => idsNonempty e && idsNonemptyList es

end

/-! ## Agent control plane (Server in the agent package) -/

/-- strings.TrimSpace restricted to the ASCII whitespace characters
(space, tab, newline, vertical tab, form feed, carriage return); the
Unicode space classes are not modelled. -/
def goIsSpace (c : Char) : Bool :=
  c = ' ' || c = '\t' || c = '\n' || c = '\x0b' || c = '\x0c' || c = '\r'

def goTrimSpace (s : String) : String :=
  String.mk (((s.data.dropWhile goIsSpace).reverse.dropWhile goIsSpace).reverse)

/-- The error returned by Server.Start while a test runs. -/
def ErrAlreadyRunning : String := "test is already running"

/-- The mutex-guarded run state of the agent Server.  The cancel function
and the stats aggregator are identified by tokens; `nextId` supplies fresh
identities for new runs. -/
structure ServerState where
  running : Bool
  cancel : Option Nat
  stats : Option Nat
  currentPlanName : String
  nextId : Nat
  deriving DecidableEq

structure HttpResp where
  status : Nat
  body : String
  deriving DecidableEq

/-- Server.Start: under the lock, an already-running server is left
untouched and the call fails; otherwise a fresh aggregator and cancel
function are stored, running becomes true and the (trimmed, defaulted)
plan name is recorded. -/
def serverStart (s : ServerState) (planNameRaw : String) : ServerState × Except String Unit :=
  let planName :=
    if goTrimSpace planNameRaw = "" then "unnamed-plan" else goTrimSpace planNameRaw
  if s.running then (s, .error ErrAlreadyRunning)
  else
    ({ running := true, cancel := some s.nextId, stats := some s.nextId,
       currentPlanName := planName, nextId := s.nextId + 1 }, .ok ())

structure StopResult where
  state : ServerState
  wasRunning : Bool
  planName : String
  cancelInvoked : Bool
  deriving DecidableEq

/-- Server.Stop: unconditionally clears running, cancel and the plan name
(the stats reference is kept for late metric reads), then invokes the
cancel function when one was stored. -/
def serverStop (s : ServerState) : StopResult :=
  { state := { s with running := false, cancel := none, currentPlanName := "" },
    wasRunning := s.running,
    planName := s.currentPlanName,
    cancelInvoked := s.cancel.isSome }

/-- Server.setStopped: the completion path of a run; clears running,
cancel and the plan name only when the stored aggregator is still the one
the finished run created. -/
def setStopped (s : ServerState) (agg : Nat) : ServerState :=
  if s.stats = some agg then
    { s with running := false, cancel := none, currentPlanName := "" }
  else s

/-- Server.handleRun for a POST request: the body either fails to decode
(mapped to 400) or yields a plan whose name drives Server.Start;
ErrAlreadyRunning maps to 409 with the state unchanged, success to
202 "started".  http.Error terminates its message with a newline. -/
def handleRun (s : ServerState) (planBody : Except String String) : ServerState × HttpResp :=
  match planBody with
  | .error msg => (s, ⟨400, "invalid test plan: " ++ msg ++ "\n"⟩)
  | .ok planName =>
      match serverStart s planName with
      | (s1, .error e) =>
          if e = ErrAlreadyRunning then (s1, ⟨409, e ++ "\n"⟩)
          else (s1, ⟨500, e ++ "\n"⟩)
      | (s1, .ok _) => (s1, ⟨202, "started"⟩)

/-- Server.handleStop for a POST request. -/
def handleStop (s : ServerState) : ServerState × HttpResp :=
  ((serverStop s).state, ⟨200, "stopped"⟩)

/-- The restart-related Server fields as NewServer builds them: the token
and the default command are trimmed on construction. -/
structure RestartConfig where
  enableRemoteRestart : Bool
  restartToken : String
  restartCommand : String
  deriving DecidableEq

def newServerRestartConfig (enable : Bool) (token command : String) : RestartConfig :=
  ⟨enable, goTrimSpace token, goTrimSpace command⟩

/-- An /admin/restart request: HTTP method, the X-Perfolizer-Admin-Token
header value, the decoded command field (empty when the body is absent or
carries none), and the JSON decode error when the body is malformed. -/
structure RestartRequest where
  method : String
  headerToken : String
  bodyCommand : String
  bodyErr : Option String
  deriving DecidableEq

/-- Server.handleRemoteRestart.  Returns the HTTP response and the command
scheduled for asynchronous execution (scheduled only after the 202
response is written and flushed). -/
def handleRemoteRestart (cfg : RestartConfig) (req : RestartRequest) :
    HttpResp × Option String :=
  if req.method ≠ "POST" then (⟨405, ""⟩, none)
  else if ¬ cfg.enableRemoteRestart then (⟨403, "remote restart is disabled\n"⟩, none)
  else
    let expectedToken := goTrimSpace cfg.restartToken
    if expectedToken ≠ "" ∧ goTrimSpace req.headerToken ≠ expectedToken then
      (⟨401, "invalid admin token\n"⟩, none)
    else
      match req.bodyErr with
      | some msg => (⟨400, "invalid restart payload: " ++ msg ++ "\n"⟩, none)
      | none =>
          let command0 := goTrimSpace req.bodyCommand
          let command := if command0 = "" then cfg.restartCommand else command0
          if command = "" then (⟨400, "restart command is empty\n"⟩, none)
          else (⟨202, "restart scheduled"⟩, some command)

/-! ## Stats aggregator (StatsRunner) -/

structure Metric where
  rps : Rat
  avgLatency : Rat
  errors : Int
  totalRequests : Int
  totalErrors : Int
  deriving DecidableEq

/-- A counter-map read, zero when the key is absent. -/
def lookup0 (m : List (String × Int)) (k : String) : Int :=
  (mapLookup m k).getD 0

/-- Go `m[k] += v` on a counter map. -/
def mapAdd (m : List (String × Int)) (k : String) (v : Int) : List (String × Int) :=
  match m with
  | [] => [(k, v)]
  | (k0, v0) :: rest => if k0 = k then (k0, v0 + v) :: rest else (k0, v0) :: mapAdd rest k v

/-- Go `m[k] = v` on a metric map. -/
def mapSet (m : List (String × Metric)) (k : String) (v : Metric) : List (String × Metric) :=
  match m with
  | [] => [(k, v)]
  | (k0, v0) :: rest => if k0 = k then (k, v) :: rest else (k0, v0) :: mapSet rest k v

/-- The StatsRunner state: interval and cumulative counter maps, the set
of ever-seen samplers, the latest published snapshot and the report
interval (nanoseconds). -/
structure StatsState where
  intervalCounts : List (String × Int)
  intervalErrors : List (String × Int)
  intervalLatSumNs : List (String × Int)
  totalCounts : List (String × Int)
  totalErrorsMap : List (String × Int)
  totalLatSumNs : List (String × Int)
  knownSamplers : List String
  latest : List (String × Metric)
  reportIntervalNs : Int

/-- The sample fields StatsRunner.ReportResult reads: name, duration
(EndTime minus StartTime, nanoseconds), success flag and whether an error
is attached. -/
structure SampleReport where
  samplerName : String
  durationNs : Int
  success : Bool
  hasError : Bool

/-- StatsRunner.ReportResult: marks the sampler known, bumps interval and
cumulative counts and latency sums, and bumps both error counters when the
sample failed or carries an error. -/
def ReportResult (s : StatsState) (r : SampleReport) : StatsState :=
  let n := r.samplerName
  let isErr := !r.success || r.hasError
  { s with
    knownSamplers :=
      if s.knownSamplers.contains n then s.knownSamplers else s.knownSamplers ++ [n],
    intervalCounts := mapAdd s.intervalCounts n 1,
    intervalLatSumNs := mapAdd s.intervalLatSumNs n r.durationNs,
    totalCounts := mapAdd s.totalCounts n 1,
    totalLatSumNs := mapAdd s.totalLatSumNs n r.durationNs,
    intervalErrors := if isErr then mapAdd s.intervalErrors n 1 else s.intervalErrors,
    totalErrorsMap := if isErr then mapAdd s.totalErrorsMap n 1 else s.totalErrorsMap }

/-- The per-sampler metric computed inside the publish loop. -/
def perSamplerMetric (s : StatsState) (w : Rat) (name : String) : Metric :=
  let intervalCount := lookup0 s.intervalCounts name
  let intervalErrs := lookup0 s.intervalErrors name
  let latNs := lookup0 s.intervalLatSumNs name
  { rps := (intervalCount : Rat) / w,
    avgLatency :=
      if intervalCount > 0 then
        (durationMilliseconds latNs : Rat) / (intervalCount : Rat)
      else 0,
    errors := intervalErrs,
    totalRequests := lookup0 s.totalCounts name,
    totalErrors := lookup0 s.totalErrorsMap name }

/-- The loop body of publishIntervalSnapshot: per sampler, one data entry
plus the five running totals (interval count, interval errors, interval
latency sum, cumulative requests, cumulative errors). -/
def publishLoop (s : StatsState) (w : Rat) :
    List String → List (String × Metric) × Int × Int × Int × Int × Int
  | [] => ([], 0, 0, 0, 0, 0)
  | n :: rest =>
      let r := publishLoop s w rest
      ((n, perSamplerMetric s w n) :: r.1,
       lookup0 s.intervalCounts n + r.2.1,
       lookup0 s.intervalErrors n + r.2.2.1,
       lookup0 s.intervalLatSumNs n + r.2.2.2.1,
       lookup0 s.totalCounts n + r.2.2.2.2.1,
       lookup0 s.totalErrorsMap n + r.2.2.2.2.2)

/-- StatsRunner.publishIntervalSnapshot: computes the window, builds the
per-sampler entries and the synthesized "Total" entry, swaps the published
snapshot and resets the three interval maps. -/
def publishIntervalSnapshot (s : StatsState) : StatsState :=
  let w0 : Rat := (s.reportIntervalNs : Rat) / 1000000000
  let w := if w0 ≤ 0 then 1 else w0
  let r := publishLoop s w s.knownSamplers
  let tic := r.2.1
  let total : Metric :=
    { rps := (tic : Rat) / w,
      avgLatency :=
        if tic > 0 then (durationMilliseconds r.2.2.2.1 : Rat) / (tic : Rat) else 0,
      errors := r.2.2.1,
      totalRequests := r.2.2.2.2.1,
      totalErrors := r.2.2.2.2.2 }
  { s with
    latest := mapSet r.1 "Total" total,
    intervalCounts := [], intervalErrors := [], intervalLatSumNs := [] }

/-- StatsRunner.Snapshot: a copy of the latest published snapshot, with a
zero "Total" added when missing. -/
def Snapshot (s : StatsState) : List (String × Metric) :=
  match mapLookup s.latest "Total" with
  | some _ => s.latest
  | none => s.latest ++ [("Total", ⟨0, 0, 0, 0, 0⟩)]

/-! ## HTTP sampler rate gate (HttpSampler.Execute) -/

/-- Context variable values as the sampler's rate gate inspects them: a
`float64`, a `bool`, a (possibly nil) `*profileScaleState` holding its
stored scale, or any other dynamic type. -/
inductive CtxVal where
  | cFloat (q : Rat)
  | cBool (b : Bool)
  | cScale (v : Rat)
  | cScaleNil
  | cOther
  deriving DecidableEq

/-- getProfileScale from the elements package: a non-nil scale state
yields its stored value, a nil one yields 1, a raw float64 is clamped at
zero from below, anything else (a missing variable included) yields 1. -/
def getProfileScale (vars : List (String × CtxVal)) : Rat :=
  match mapLookup vars "RPSProfileScale" with
  | some (.cScale v) => v
  | some .cScaleNil => 1
  | some (.cFloat v) => if v < 0 then 0 else v
  | _ => 1

/-- The observable outcome of the rate-gate prologue of
HttpSampler.Execute: the computed base and effective rates, whether a
limiter was obtained or created, and whether execution reached the
request phase (where the request is issued and a result reported). -/
structure RateGate where
  baseRPS : Rat
  targetRPS : Rat
  createdLimiter : Bool
  reachedRequestPhase : Bool
  deriving DecidableEq

/-- The rate-gate prologue of HttpSampler.Execute: the base rate is the
sampler's TargetRPS, or the context's DefaultRPS when TargetRPS is zero
and the variable holds a float64; the effective rate multiplies in the
profile scale; a positive base with a non-positive effective rate returns
nil immediately; a positive effective rate goes through the limiter,
whose non-blocking refusal (`limiterAllow = false` under RPSNonBlocking)
also returns nil without reaching the request phase.  The blocking wait
is modelled as succeeding. -/
def httpSamplerRateGate (samplerTargetRPS : Rat) (vars : List (String × CtxVal))
    (limiterAllow : Bool) : RateGate :=
  let baseRPS :=
    if samplerTargetRPS = 0 then
      match mapLookup vars "DefaultRPS" with
      | some (.cFloat v) => v
      | _ => 0
    else samplerTargetRPS
  let targetRPS := baseRPS * getProfileScale vars
  if baseRPS > 0 ∧ targetRPS ≤ 0 then
    ⟨baseRPS, targetRPS, false, false⟩
  else if targetRPS > 0 then
    let nonBlocking :=
      match mapLookup vars "RPSNonBlocking" with
      | some (.cBool b) => b
      | _ => false
    if nonBlocking && !limiterAllow then ⟨baseRPS, targetRPS, true, false⟩
    else ⟨baseRPS, targetRPS, true, true⟩
  else ⟨baseRPS, targetRPS, false, true⟩

/-- Modelled from the spec: the base rate is the sampler's TargetRPS if
non-zero, else the context variable DefaultRPS if present (as the float64
the thread groups store there), else 0. -/
def specBaseRate (samplerTargetRPS : Rat) (vars : List (String × CtxVal)) : Rat :=
  if samplerTargetRPS ≠ 0 then samplerTargetRPS
  else
    match mapLookup vars "DefaultRPS" with
    | some (.cFloat v) => v
    | _ => 0

/-! ## Controllers and thread-group error handling -/

/-- Errors an element execution can return: context cancellation or any
other error. -/
inductive ExecErr where
  | canceled
  | other (msg : String)
  deriving DecidableEq

/-- A child as a controller sees it: the enabled flag, whether it
implements Executable, and the error its Execute returns (none = nil). -/
structure ChildBeh where
  enabled : Bool
  executable : Bool
  result : Option ExecErr
  deriving DecidableEq

/-- The child loop shared by LoopController.Execute and
IfController.Execute: disabled or non-executable children are skipped;
an executed child's non-nil error is returned at once, skipping the
remaining siblings.  The Bool list records which children were executed. -/
def runSiblings : List ChildBeh → List Bool × Option ExecErr
  | [] => ([], none)
  | c :: rest =>
      if c.enabled && c.executable then
        match c.result with
        | some e => (true :: List.replicate rest.length false, some e)
        | none =>
            let r := runSiblings rest
            (true :: r.1, r.2)
      else
        let r := runSiblings rest
        (false :: r.1, r.2)

/-- LoopController.Execute for a non-negative loop count: each iteration
first checks the context error, then runs the children; a child error ends
the invocation.  Returns the executed-flags of the completed or partial
iterations and the returned error. -/
def loopControllerExecute : Nat → Option ExecErr → List ChildBeh →
    List (List Bool) × Option ExecErr
  | 0, _, _ => ([], none)
  | Nat.succ k, ctxErr, children =>
      match ctxErr with
      | some e => ([], some e)
      | none =>
          let r := runSiblings children
          match r.2 with
          | some e => ([r.1], some e)
          | none =>
              let r0 := loopControllerExecute k none children
              (r.1 :: r0.1, r0.2)

/-- IfController.Execute: runs the children when the condition holds. -/
def ifControllerExecute (cond : Bool) (children : List ChildBeh) :
    List Bool × Option ExecErr :=
  if cond then runSiblings children
  else (List.replicate children.length false, none)

/-- The per-iteration child loop of a SimpleThreadGroup worker: a child
error makes the worker return only when the group context is cancelled;
otherwise the remaining siblings still run.  The second component records
whether the worker returned. -/
def threadGroupRunChildren (ctxErr : Option ExecErr) :
    List ChildBeh → List Bool × Bool
  | [] => ([], false)
  | c :: rest =>
      if c.enabled && c.executable then
        match c.result with
        | some _ =>
            match ctxErr with
            | some _ => (true :: List.replicate rest.length false, true)
            | none =>
                let r := threadGroupRunChildren none rest
                (true :: r.1, r.2)
        | none =>
            let r := threadGroupRunChildren ctxErr rest
            (true :: r.1, r.2)
      else
        let r := threadGroupRunChildren ctxErr rest
        (false :: r.1, r.2)

/-! ## Lemmas about variable substitution -/

theorem expand_nil (vars : List (GoStr × GoStr)) : expandVariables vars [] = [] := by
  rw [expandVariables]

theorem spec_nil (vars : List (GoStr × GoStr)) : specSubstitute vars [] = [] := by
  rw [specSubstitute]

theorem expand_cons_neg (vars : List (GoStr × GoStr)) (c : Char) (rest : GoStr)
    (hg : ¬(c = '$' ∧ rest.head? = some '\x7b' ∧ 3 ≤ rest.length)) :
    expandVariables vars (c :: rest) = c :: expandVariables vars rest := by
  rw [expandVariables]
  simp [hg]

theorem expand_cons_bound (vars : List (GoStr × GoStr)) (c : Char) (rest key after v : GoStr)
    (hg : c = '$' ∧ rest.head? = some '\x7b' ∧ 3 ≤ rest.length)
    (hsp : splitAtClose rest.tail = some (key, after))
    (hlk : lookupVar vars key = some v) :
    expandVariables vars (c :: rest) = v ++ expandVariables vars after := by
  rw [expandVariables]
  simp only [if_pos hg]
  rw [hsp]
  simp [hlk]

theorem expand_cons_unbound (vars : List (GoStr × GoStr)) (c : Char) (rest key after : GoStr)
    (hg : c = '$' ∧ rest.head? = some '\x7b' ∧ 3 ≤ rest.length)
    (hsp : splitAtClose rest.tail = some (key, after))
    (hlk : lookupVar vars key = none) :
    expandVariables vars (c :: rest) = c :: expandVariables vars rest := by
  rw [expandVariables]
  simp only [if_pos hg]
  rw [hsp]
  simp [hlk]

theorem expand_cons_noclose (vars : List (GoStr × GoStr)) (c : Char) (rest : GoStr)
    (hg : c = '$' ∧ rest.head? = some '\x7b' ∧ 3 ≤ rest.length)
    (hsp : splitAtClose rest.tail = none) :
    expandVariables vars (c :: rest) = c :: expandVariables vars rest := by
  rw [expandVariables]
  simp only [if_pos hg]
  rw [hsp]

theorem spec_cons_neg (vars : List (GoStr × GoStr)) (c : Char) (rest : GoStr)
    (hg : ¬(c = '$' ∧ rest.head? = some '\x7b')) :
    specSubstitute vars (c :: rest) = c :: specSubstitute vars rest := by
  rw [specSubstitute]
  simp [hg]

theorem spec_cons_bound (vars : List (GoStr × GoStr)) (c : Char) (rest key after v : GoStr)
    (hg : c = '$' ∧ rest.head? = some '\x7b')
    (hsp : splitAtClose rest.tail = some (key, after))
    (hlk : lookupVar vars key = some v) :
    specSubstitute vars (c :: rest) = v ++ specSubstitute vars after := by
  rw [specSubstitute]
  simp only [if_pos hg]
  rw [hsp]
  simp [hlk]

theorem spec_cons_unbound (vars : List (GoStr × GoStr)) (c : Char) (rest key after : GoStr)
    (hg : c = '$' ∧ rest.head? = some '\x7b')
    (hsp : splitAtClose rest.tail = some (key, after))
    (hlk : lookupVar vars key = none) :
    specSubstitute vars (c :: rest) = c :: specSubstitute vars rest := by
  rw [specSubstitute]
  simp only [if_pos hg]
  rw [hsp]
  simp [hlk]

theorem spec_cons_noclose (vars : List (GoStr × GoStr)) (c : Char) (rest : GoStr)
    (hg : c = '$' ∧ rest.head? = some '\x7b')
    (hsp : splitAtClose rest.tail = none) :
    specSubstitute vars (c :: rest) = c :: specSubstitute vars rest := by
  rw [specSubstitute]
  simp only [if_pos hg]
  rw [hsp]

theorem containsVar_short (t : GoStr) (h : t.length ≤ 3) : containsVar t = false := by
  match t with
  | [] => rfl
  | c :: rest =>
    have hlen : rest.length < 3 := by
      simp only [List.length_cons] at h
      omega
    simp [containsVar, hlen]

theorem expand_of_not_containsVar (vars : List (GoStr × GoStr)) :
    ∀ t, containsVar t = false → expandVariables vars t = t := by
  intro t
  induction t with
  | nil => intro _; exact expand_nil vars
  | cons c rest ih =>
    intro h
    by_cases hlen : rest.length < 3
    · have hg : ¬(c = '$' ∧ rest.head? = some '\x7b' ∧ 3 ≤ rest.length) := by
        intro hc
        exact absurd hc.2.2 (by omega)
      rw [expand_cons_neg vars c rest hg]
      rw [ih (containsVar_short rest (by omega))]
    · rw [containsVar, if_neg hlen] at h
      by_cases hsig : c = '$' ∧ rest.head? = some '\x7b'
      · rw [if_pos (by simp [hsig.1, hsig.2])] at h
        exact absurd h (by simp)
      · have hcond : ¬((c = '$' && rest.head? = some '\x7b') = true) := by
          simp only [Bool.and_eq_true, decide_eq_true_eq]
          tauto
        rw [if_neg hcond] at h
        rw [expand_cons_neg vars c rest (by tauto), ih h]

theorem substitute_eq_expand (vars : List (GoStr × GoStr)) (t : GoStr) :
    Substitute vars t = expandVariables vars t := by
  unfold Substitute
  by_cases ht : t = []
  · subst ht
    rw [expand_nil]
    simp
  · simp only [if_neg ht]
    by_cases hcv : containsVar t
    · simp [hcv]
    · simp only [Bool.not_eq_true] at hcv
      simp [hcv]
      exact (expand_of_not_containsVar vars t hcv).symm

theorem containsVar_false_of_not_dollarBrace (t : GoStr)
    (h : containsDollarBrace t = false) : containsVar t = false := by
  induction t with
  | nil => rfl
  | cons c rest ih =>
    rw [containsDollarBrace, Bool.or_eq_false_iff] at h
    rw [containsVar]
    by_cases hlen : rest.length < 3
    · simp [hlen]
    · rw [if_neg hlen, if_neg (by rw [h.1]; simp), ih h.2]

theorem splitAtClose_eq_none_of_not_mem (l : GoStr) (h : '\x7d' ∉ l) :
    splitAtClose l = none := by
  induction l with
  | nil => rfl
  | cons c rest ih =>
    rw [splitAtClose]
    have hc : c ≠ '\x7d' := by
      intro hc
      exact h (hc ▸ List.mem_cons_self c rest)
    rw [if_neg hc, ih (fun hm => h (List.mem_cons_of_mem c hm))]

theorem expand_eq_spec_aux (vars : List (GoStr × GoStr))
    (h0 : lookupVar vars [] = none) :
    ∀ n : Nat, ∀ t : GoStr, t.length ≤ n →
      expandVariables vars t = specSubstitute vars t := by
  intro n
  induction n with
  | zero =>
    intro t ht
    have : t = [] := List.length_eq_zero.mp (Nat.le_zero.mp ht)
    subst this
    rw [expand_nil, spec_nil]
  | succ k ih =>
    intro t ht
    match t with
    | [] => rw [expand_nil, spec_nil]
    | c :: rest =>
      have hrlen : rest.length ≤ k := by
        simp only [List.length_cons] at ht
        omega
      by_cases hsig : c = '$' ∧ rest.head? = some '\x7b'
      · by_cases hlen : 3 ≤ rest.length
        · have hg : c = '$' ∧ rest.head? = some '\x7b' ∧ 3 ≤ rest.length :=
            ⟨hsig.1, hsig.2, hlen⟩
          cases hsp : splitAtClose rest.tail with
          | some p =>
            obtain ⟨key, after⟩ := p
            cases hlk : lookupVar vars key with
            | some v =>
              rw [expand_cons_bound vars c rest key after v hg hsp hlk,
                spec_cons_bound vars c rest key after v hsig hsp hlk]
              have hafter : after.length ≤ k := by
                have h1 := splitAtClose_length hsp
                have h2 : rest.tail.length ≤ rest.length := by
                  cases rest <;> simp
                omega
              rw [ih after hafter]
            | none =>
              rw [expand_cons_unbound vars c rest key after hg hsp hlk,
                spec_cons_unbound vars c rest key after hsig hsp hlk, ih rest hrlen]
          | none =>
            rw [expand_cons_noclose vars c rest hg hsp,
              spec_cons_noclose vars c rest hsig hsp, ih rest hrlen]
        · have hgneg : ¬(c = '$' ∧ rest.head? = some '\x7b' ∧ 3 ≤ rest.length) := by
            tauto
          rw [expand_cons_neg vars c rest hgneg]
          obtain ⟨rest1, hrest1⟩ : ∃ rest1, rest = '\x7b' :: rest1 := by
            cases rest with
            | nil => simp at hsig
            | cons x xs =>
              have : x = '\x7b' := by
                have := hsig.2
                simp at this
                exact this
              exact ⟨xs, by rw [this]⟩
          subst hrest1
          have hr1len : rest1.length ≤ 1 := by
            simp only [List.length_cons] at hlen
            omega
          match rest1, hr1len with
          | [], _ =>
            have hsp : splitAtClose (('\x7b' :: ([] : GoStr)).tail) = none := rfl
            rw [spec_cons_noclose vars c _ hsig hsp, ih _ hrlen]
          | [x], _ =>
            by_cases hx : x = '\x7d'
            · subst hx
              have hsp : splitAtClose (('\x7b' :: ['\x7d']).tail) = some ([], []) := rfl
              rw [spec_cons_unbound vars c _ [] [] hsig hsp h0, ih _ hrlen]
            · have hsp : splitAtClose (('\x7b' :: [x]).tail) = none := by
                simp [splitAtClose, hx]
              rw [spec_cons_noclose vars c _ hsig hsp, ih _ hrlen]
      · rw [expand_cons_neg vars c rest (by tauto), spec_cons_neg vars c rest hsig,
          ih rest hrlen]

theorem substitute_eq_spec (vars : List (GoStr × GoStr))
    (h0 : lookupVar vars [] = none) (t : GoStr) :
    Substitute vars t = specSubstitute vars t := by
  rw [substitute_eq_expand]
  exact expand_eq_spec_aux vars h0 t.length t (le_refl _)

theorem expand_of_allOpensUnterminated (vars : List (GoStr × GoStr)) :
    ∀ t, allOpensUnterminated t = true → expandVariables vars t = t := by
  intro t
  induction t with
  | nil => intro _; exact expand_nil vars
  | cons c rest ih =>
    intro h
    rw [allOpensUnterminated, Bool.and_eq_true] at h
    obtain ⟨h1, h2⟩ := h
    by_cases hsig : c = '$' ∧ rest.head? = some '\x7b'
    · have hnc : '\x7d' ∉ rest := by
        rw [if_pos (by simp [hsig.1, hsig.2])] at h1
        simpa using h1
      have hmem : '\x7d' ∉ rest.tail :=
        fun hm => hnc (List.mem_of_mem_tail hm)
      have hsp := splitAtClose_eq_none_of_not_mem rest.tail hmem
      by_cases hlen : 3 ≤ rest.length
      · rw [expand_cons_noclose vars c rest ⟨hsig.1, hsig.2, hlen⟩ hsp, ih h2]
      · rw [expand_cons_neg vars c rest (by tauto), ih h2]
    · rw [expand_cons_neg vars c rest (by tauto), ih h2]


theorem splitAtClose_length_eq {l k a : GoStr} (h : splitAtClose l = some (k, a)) :
    l.length = k.length + 1 + a.length := by
  induction l generalizing k a with
  | nil => simp [splitAtClose] at h
  | cons c rest ih =>
    by_cases hc : c = '\x7d'
    · simp [splitAtClose, hc] at h
      obtain ⟨hk, ha⟩ := h
      subst ha
      subst hk
      simp only [List.length_nil, List.length_cons]
      omega
    · simp only [splitAtClose, if_neg hc] at h
      cases hsp : splitAtClose rest with
      | none => rw [hsp] at h; simp at h
      | some p =>
        rw [hsp] at h
        obtain ⟨k0, a0⟩ := p
        simp at h
        have := ih (k := k0) (a := a0) hsp
        simp only [← h.1, ← h.2, List.length_cons]
        omega

theorem expand_of_not_mem_close (vars : List (GoStr × GoStr)) :
    ∀ t, '\x7d' ∉ t → expandVariables vars t = t := by
  intro t
  induction t with
  | nil => intro _; exact expand_nil vars
  | cons c rest ih =>
    intro h
    have hrest : '\x7d' ∉ rest := fun hm => h (List.mem_cons_of_mem c hm)
    by_cases hg : c = '$' ∧ rest.head? = some '\x7b' ∧ 3 ≤ rest.length
    · have hsp := splitAtClose_eq_none_of_not_mem rest.tail
        (fun hm => hrest (List.mem_of_mem_tail hm))
      rw [expand_cons_noclose vars c rest hg hsp, ih hrest]
    · rw [expand_cons_neg vars c rest hg, ih hrest]

theorem splitAtClose_append (a b : GoStr) (hb : '\x7d' ∉ b) :
    splitAtClose (a ++ b) =
      match splitAtClose a with
      | some (k, r) => some (k, r ++ b)
      | none => none := by
  induction a with
  | nil =>
    rw [List.nil_append, splitAtClose_eq_none_of_not_mem b hb]
    rfl
  | cons c rest ih =>
    rw [List.cons_append]
    by_cases hc : c = '\x7d'
    · simp only [splitAtClose, if_pos hc]
    · simp only [splitAtClose, if_neg hc, ih]
      cases hsp : splitAtClose rest with
      | none => rfl
      | some p =>
        obtain ⟨k, r⟩ := p
        rfl

theorem expand_append_exists_aux (vars : List (GoStr × GoStr)) (tail : GoStr)
    (hcl : '\x7d' ∉ tail) :
    ∀ n : Nat, ∀ pre : GoStr, pre.length ≤ n →
      ∃ out, expandVariables vars (pre ++ '$' :: '\x7b' :: tail) =
        out ++ '$' :: '\x7b' :: tail := by
  have hsuf : '\x7d' ∉ ('$' :: '\x7b' :: tail) := by
    intro hm
    rcases List.mem_cons.mp hm with h | hm2
    · exact absurd h (by decide)
    · rcases List.mem_cons.mp hm2 with h | hm3
      · exact absurd h (by decide)
      · exact hcl hm3
  intro n
  induction n with
  | zero =>
    intro pre hp
    have hpre : pre = [] := List.length_eq_zero.mp (Nat.le_zero.mp hp)
    subst hpre
    exact ⟨[], by rw [List.nil_append, expand_of_not_mem_close vars _ hsuf]⟩
  | succ k ih =>
    intro pre hp
    match pre with
    | [] =>
      exact ⟨[], by rw [List.nil_append, expand_of_not_mem_close vars _ hsuf]⟩
    | c :: pre' =>
      have hp' : pre'.length ≤ k := by
        simp only [List.length_cons] at hp
        omega
      rw [List.cons_append]
      by_cases hg : c = '$' ∧ (pre' ++ '$' :: '\x7b' :: tail).head? = some '\x7b' ∧
          3 ≤ (pre' ++ '$' :: '\x7b' :: tail).length
      · obtain ⟨pre'', rfl⟩ : ∃ p, pre' = '\x7b' :: p := by
          cases pre' with
          | nil => exact absurd hg.2.1 (by simp)
          | cons x xs =>
            have hx := hg.2.1
            rw [List.cons_append] at hx
            simp at hx
            exact ⟨xs, by rw [hx]⟩
        cases hsp : splitAtClose pre'' with
        | some p =>
          obtain ⟨key, a2⟩ := p
          have hspc : splitAtClose ((('\x7b' :: pre'') ++ '$' :: '\x7b' :: tail).tail) =
              some (key, a2 ++ '$' :: '\x7b' :: tail) := by
            show splitAtClose (pre'' ++ '$' :: '\x7b' :: tail) = _
            rw [splitAtClose_append pre'' _ hsuf, hsp]
          cases hlk : lookupVar vars key with
          | some v =>
            rw [expand_cons_bound vars c _ key _ v hg hspc hlk]
            have hlenEq := splitAtClose_length_eq hsp
            have ha2 : a2.length ≤ k := by
              simp only [List.length_cons] at hp
              omega
            obtain ⟨out2, hout2⟩ := ih a2 ha2
            exact ⟨v ++ out2, by rw [hout2, List.append_assoc]⟩
          | none =>
            rw [expand_cons_unbound vars c _ key _ hg hspc hlk]
            obtain ⟨out2, hout2⟩ := ih ('\x7b' :: pre'') hp'
            exact ⟨c :: out2, by rw [hout2]; rfl⟩
        | none =>
          have hspc : splitAtClose ((('\x7b' :: pre'') ++ '$' :: '\x7b' :: tail).tail) = none := by
            show splitAtClose (pre'' ++ '$' :: '\x7b' :: tail) = _
            rw [splitAtClose_append pre'' _ hsuf, hsp]
          rw [expand_cons_noclose vars c _ hg hspc]
          obtain ⟨out2, hout2⟩ := ih ('\x7b' :: pre'') hp'
          exact ⟨c :: out2, by rw [hout2]; rfl⟩
      · rw [expand_cons_neg vars c _ hg]
        obtain ⟨out2, hout2⟩ := ih pre' hp'
        exact ⟨c :: out2, by rw [hout2]; rfl⟩

theorem expand_append_eq_aux (vars : List (GoStr × GoStr))
    (h0 : lookupVar vars [] = none) (tail : GoStr) (hcl : '\x7d' ∉ tail) :
    ∀ n : Nat, ∀ pre : GoStr, pre.length ≤ n →
      expandVariables vars (pre ++ '$' :: '\x7b' :: tail) =
        expandVariables vars pre ++ '$' :: '\x7b' :: tail := by
  have hsuf : '\x7d' ∉ ('$' :: '\x7b' :: tail) := by
    intro hm
    rcases List.mem_cons.mp hm with h | hm2
    · exact absurd h (by decide)
    · rcases List.mem_cons.mp hm2 with h | hm3
      · exact absurd h (by decide)
      · exact hcl hm3
  intro n
  induction n with
  | zero =>
    intro pre hp
    have hpre : pre = [] := List.length_eq_zero.mp (Nat.le_zero.mp hp)
    subst hpre
    rw [List.nil_append, expand_of_not_mem_close vars _ hsuf, expand_nil, List.nil_append]
  | succ k ih =>
    intro pre hp
    match pre with
    | [] =>
      rw [List.nil_append, expand_of_not_mem_close vars _ hsuf, expand_nil, List.nil_append]
    | c :: pre' =>
      have hp' : pre'.length ≤ k := by
        simp only [List.length_cons] at hp
        omega
      rw [List.cons_append]
      by_cases hg : c = '$' ∧ (pre' ++ '$' :: '\x7b' :: tail).head? = some '\x7b' ∧
          3 ≤ (pre' ++ '$' :: '\x7b' :: tail).length
      · obtain ⟨pre'', rfl⟩ : ∃ p, pre' = '\x7b' :: p := by
          cases pre' with
          | nil => exact absurd hg.2.1 (by simp)
          | cons x xs =>
            have hx := hg.2.1
            rw [List.cons_append] at hx
            simp at hx
            exact ⟨xs, by rw [hx]⟩
        cases hsp : splitAtClose pre'' with
        | some p =>
          obtain ⟨key, a2⟩ := p
          have hspc : splitAtClose ((('\x7b' :: pre'') ++ '$' :: '\x7b' :: tail).tail) =
              some (key, a2 ++ '$' :: '\x7b' :: tail) := by
            show splitAtClose (pre'' ++ '$' :: '\x7b' :: tail) = _
            rw [splitAtClose_append pre'' _ hsuf, hsp]
          cases hlk : lookupVar vars key with
          | some v =>
            rw [expand_cons_bound vars c _ key _ v hg hspc hlk]
            have hkey : key ≠ [] := by
              intro hk
              rw [hk, h0] at hlk
              exact Option.noConfusion hlk
            have hkl : 1 ≤ key.length := by
              cases key with
              | nil => exact absurd rfl hkey
              | cons _ _ => simp
            have hlenEq := splitAtClose_length_eq hsp
            have hg2 : c = '$' ∧ ('\x7b' :: pre'').head? = some '\x7b' ∧
                3 ≤ ('\x7b' :: pre'').length := by
              refine ⟨hg.1, rfl, ?_⟩
              simp only [List.length_cons]
              omega
            rw [expand_cons_bound vars c ('\x7b' :: pre'') key a2 v hg2 hsp hlk]
            have ha2 : a2.length ≤ k := by
              simp only [List.length_cons] at hp
              omega
            rw [ih a2 ha2, List.append_assoc]
          | none =>
            rw [expand_cons_unbound vars c _ key _ hg hspc hlk]
            by_cases hg2 : 3 ≤ ('\x7b' :: pre'').length
            · rw [expand_cons_unbound vars c ('\x7b' :: pre'') key a2
                ⟨hg.1, rfl, hg2⟩ hsp hlk]
              rw [ih _ hp']
              rfl
            · rw [expand_cons_neg vars c ('\x7b' :: pre'') (fun hc => absurd hc.2.2 hg2)]
              rw [ih _ hp']
              rfl
        | none =>
          have hspc : splitAtClose ((('\x7b' :: pre'') ++ '$' :: '\x7b' :: tail).tail) = none := by
            show splitAtClose (pre'' ++ '$' :: '\x7b' :: tail) = _
            rw [splitAtClose_append pre'' _ hsuf, hsp]
          rw [expand_cons_noclose vars c _ hg hspc]
          by_cases hg2 : 3 ≤ ('\x7b' :: pre'').length
          · rw [expand_cons_noclose vars c ('\x7b' :: pre'') ⟨hg.1, rfl, hg2⟩ hsp]
            rw [ih _ hp']
            rfl
          · rw [expand_cons_neg vars c ('\x7b' :: pre'') (fun hc => absurd hc.2.2 hg2)]
            rw [ih _ hp']
            rfl
      · rw [expand_cons_neg vars c _ hg]
        have hg3 : ¬(c = '$' ∧ pre'.head? = some '\x7b' ∧ 3 ≤ pre'.length) := by
          intro hc
          apply hg
          refine ⟨hc.1, ?_, ?_⟩
          · cases pre' with
            | nil => exact absurd hc.2.1 (by simp)
            | cons d r => simpa using hc.2.1
          · rw [List.length_append]
            have := hc.2.2
            omega
        rw [expand_cons_neg vars c pre' hg3, ih pre' hp']
        rfl

/-! ## Claim C5 and C10: variable substitution -/

/-- C5: variable substitution.  For every text with no occurrence of the
two-character sequence dollar-open-brace, Substitute returns the text
unchanged; and, provided no variable is registered under the empty name,
Substitute agrees with the spec-level purely lexical substitution, under
which an occurrence whose name is bound is replaced by the stringified
value (inserted verbatim, never re-expanded) and an occurrence whose name
is unbound keeps its literal characters in place. -/
theorem spec_C5_variable_substitution (vars : List (GoStr × GoStr))
    (hnoEmptyName : lookupVar vars [] = none) (text : GoStr) :
    (containsDollarBrace text = false → Substitute vars text = text) ∧
    Substitute vars text = specSubstitute vars text := by
  constructor
  · intro h
    rw [substitute_eq_expand]
    exact expand_of_not_containsVar vars text
      (containsVar_false_of_not_dollarBrace text h)
  · exact substitute_eq_spec vars hnoEmptyName text

/-- Witness for C5: a variable map binding name h to x, applied to a text
without variable references and to the reference itself. -/
theorem spec_C5_variable_substitution_witness :
    (Substitute [(['h'], ['x'])] ['a', 'b'] = ['a', 'b']) ∧
    Substitute [(['h'], ['x'])] ['$', '\x7b', 'h', '\x7d'] =
      specSubstitute [(['h'], ['x'])] ['$', '\x7b', 'h', '\x7d'] :=
  ⟨(spec_C5_variable_substitution [(['h'], ['x'])] (by decide) ['a', 'b']).1 (by decide),
   (spec_C5_variable_substitution [(['h'], ['x'])] (by decide) _).2⟩

/-- C10: unterminated variable references are preserved.  For every text
decomposing as pre, then a dollar and an opening brace, then a tail with
no closing brace (an occurrence of the opener with no closing brace
anywhere after it): the output of Substitute ends with those characters
verbatim, for every variables map; when no variable is bound to the empty
name the output is exactly Substitute of the prefix followed by the
verbatim unterminated reference, so the substitutable references before
it are still replaced; and in particular a text whose opener occurrences
are all unterminated is returned unchanged, regardless of the variables
map. -/
theorem spec_C10_unterminated_preserved (vars : List (GoStr × GoStr))
    (pre tail : GoStr) (hcl : '\x7d' ∉ tail) :
    (∃ out, Substitute vars (pre ++ '$' :: '\x7b' :: tail) =
      out ++ '$' :: '\x7b' :: tail) ∧
    (lookupVar vars [] = none →
      Substitute vars (pre ++ '$' :: '\x7b' :: tail) =
        Substitute vars pre ++ '$' :: '\x7b' :: tail) ∧
    (∀ t : GoStr, allOpensUnterminated t = true → Substitute vars t = t) := by
  refine ⟨?_, ?_, ?_⟩
  · rw [substitute_eq_expand]
    exact expand_append_exists_aux vars tail hcl pre.length pre (le_refl _)
  · intro h0
    rw [substitute_eq_expand, substitute_eq_expand]
    exact expand_append_eq_aux vars h0 tail hcl pre.length pre (le_refl _)
  · intro t ht
    rw [substitute_eq_expand]
    exact expand_of_allOpensUnterminated vars t ht

/-- Witness for C10 on the text dollar-brace-a-close followed by an
unterminated dollar-brace, with a bound: the trailing opener survives
verbatim while the leading reference is still substituted; and an
all-unterminated text is returned unchanged. -/
theorem spec_C10_unterminated_preserved_witness :
    (∃ out, Substitute [(['a'], ['V'])]
        (['$', '\x7b', 'a', '\x7d'] ++ '$' :: '\x7b' :: []) =
      out ++ '$' :: '\x7b' :: []) ∧
    Substitute [(['a'], ['V'])] (['$', '\x7b', 'a', '\x7d'] ++ '$' :: '\x7b' :: []) =
      Substitute [(['a'], ['V'])] ['$', '\x7b', 'a', '\x7d'] ++ '$' :: '\x7b' :: [] ∧
    Substitute [(['a'], ['V'])] ['a', '$', '\x7b', 'b', '$', '\x7b'] =
      ['a', '$', '\x7b', 'b', '$', '\x7b'] :=
  ⟨(spec_C10_unterminated_preserved [(['a'], ['V'])]
      ['$', '\x7b', 'a', '\x7d'] [] (by decide)).1,
   (spec_C10_unterminated_preserved [(['a'], ['V'])]
      ['$', '\x7b', 'a', '\x7d'] [] (by decide)).2.1 (by decide),
   (spec_C10_unterminated_preserved [(['a'], ['V'])]
      ['$', '\x7b', 'a', '\x7d'] [] (by decide)).2.2
     ['a', '$', '\x7b', 'b', '$', '\x7b'] (by decide)⟩

/-! ## Claim C7: the enabled field in serialized DTOs -/

/-- C7 counterexample: an enabled element whose toDTO sets the enabled
pointer to true rather than omitting it (toDTO always stores the pointer,
and encoding/json omitempty omits only a nil pointer), refuting the claim
that enabled is absent from the serialized form when true. -/
theorem spec_C7_enabled_omitted_counterexample :
    (toDTO (Elem.testPlan "i1" "p" true [])).dtoEnabled = some true ∧
    (toDTO (Elem.testPlan "i1" "p" true [])).dtoEnabled ≠ none := by
  refine ⟨rfl, ?_⟩
  intro h
  rw [(rfl : (toDTO (Elem.testPlan "i1" "p" true [])).dtoEnabled = some true)] at h
  exact Option.noConfusion h

/-- C7 amended: toDTO always emits the enabled field, set to the element's
actual flag, for every element; an absent field arises only for DTOs not
produced by toDTO (fromDTO treats it as true). -/
theorem spec_C7_enabled_always_emitted (e : Elem) :
    (toDTO e).dtoEnabled = some e.isEnabled := by
  cases e <;> rfl


/-! ## Claim C8: fromDTO on unknown type tags -/

theorem childList_setID (e : Elem) (i : String) : (e.setID i).childList = e.childList := by
  cases e <;> rfl

theorem childList_setEnabled (e : Elem) (b : Bool) :
    (e.setEnabled b).childList = e.childList := by
  cases e <;> rfl

theorem childList_appendChildren (e : Elem) (cs : List Elem) :
    (e.appendChildren cs).childList = e.childList ++ cs := by
  cases e <;> rfl

theorem elemName_setID (e : Elem) (i : String) : (e.setID i).elemName = e.elemName := by
  cases e <;> rfl

theorem elemName_setEnabled (e : Elem) (b : Bool) :
    (e.setEnabled b).elemName = e.elemName := by
  cases e <;> rfl

theorem elemName_appendChildren (e : Elem) (cs : List Elem) :
    (e.appendChildren cs).elemName = e.elemName := by
  cases e <;> rfl

theorem isTestPlanRoot_setID (e : Elem) (i : String) :
    (e.setID i).isTestPlanRoot = e.isTestPlanRoot := by
  cases e <;> rfl

theorem isTestPlanRoot_setEnabled (e : Elem) (b : Bool) :
    (e.setEnabled b).isTestPlanRoot = e.isTestPlanRoot := by
  cases e <;> rfl

theorem isTestPlanRoot_appendChildren (e : Elem) (cs : List Elem) :
    (e.appendChildren cs).isTestPlanRoot = e.isTestPlanRoot := by
  cases e <;> rfl

theorem childList_applyMeta (e : Elem) (i : String) (en : Option Bool) (cs : List Elem) :
    (applyMeta e i en cs).childList = e.childList ++ cs := by
  unfold applyMeta
  cases en <;> by_cases hi : i = "" <;>
    simp [hi, childList_setID, childList_setEnabled, childList_appendChildren]

theorem elemName_applyMeta (e : Elem) (i : String) (en : Option Bool) (cs : List Elem) :
    (applyMeta e i en cs).elemName = e.elemName := by
  unfold applyMeta
  cases en <;> by_cases hi : i = "" <;>
    simp [hi, elemName_setID, elemName_setEnabled, elemName_appendChildren]

theorem isTestPlanRoot_applyMeta (e : Elem) (i : String) (en : Option Bool) (cs : List Elem) :
    (applyMeta e i en cs).isTestPlanRoot = e.isTestPlanRoot := by
  unfold applyMeta
  cases en <;> by_cases hi : i = "" <;>
    simp [hi, isTestPlanRoot_setID, isTestPlanRoot_setEnabled, isTestPlanRoot_appendChildren]

theorem factoryApply_eq_none_iff (t n : String) (props : List (String × GoVal)) :
    factoryApply t n props = none ↔ hasFactory t = false := by
  unfold factoryApply hasFactory
  split_ifs <;> simp [*]

theorem factoryApply_childList (t n : String) (props : List (String × GoVal)) (e : Elem)
    (h : factoryApply t n props = some e) : e.childList = [] := by
  unfold factoryApply at h
  split_ifs at h <;> simp only [Option.some.injEq] at h <;> rw [← h] <;> rfl

theorem loadChildrenList_eq_filterMap (cs : List TestElementDTO) :
    loadChildrenList cs = cs.filterMap (fun c => (fromDTO c).toOption) := by
  induction cs with
  | nil => rfl
  | cons c rest ih =>
    rw [loadChildrenList]
    cases h : fromDTO c with
    | ok e => simp [List.filterMap_cons, h, Except.toOption, ih]
    | error msg => simp [List.filterMap_cons, h, Except.toOption, ih]

/-- C8: fromDTO on an unknown type tag.  With no factory registered, a
"TestPlan" tag still yields a plain root carrying the DTO name, and every
other tag fails with the unknown-element-type error; and whenever fromDTO
succeeds, the children of the result are exactly the successfully
constructed child DTOs, in order, with failing children skipped
silently. -/
theorem spec_C8_unknown_type (dto : TestElementDTO) :
    (hasFactory dto.dtoType = false →
      (dto.dtoType = "TestPlan" →
        ∃ e, fromDTO dto = .ok e ∧ e.isTestPlanRoot = true ∧ e.elemName = dto.dtoName) ∧
      (dto.dtoType ≠ "TestPlan" →
        fromDTO dto = .error ("unknown element type: " ++ dto.dtoType))) ∧
    (∀ e, fromDTO dto = .ok e →
      e.childList = dto.dtoChildren.filterMap (fun c => (fromDTO c).toOption)) := by
  obtain ⟨t, i, n, en, props, cs⟩ := dto
  simp only [TestElementDTO.dtoType, TestElementDTO.dtoName, TestElementDTO.dtoChildren]
  constructor
  · intro hfac
    have hnone : factoryApply t n props = none :=
      (factoryApply_eq_none_iff t n props).mpr hfac
    constructor
    · intro ht
      refine ⟨applyMeta (.testPlan GenerateID n true []) i en (loadChildrenList cs), ?_, ?_, ?_⟩
      · rw [fromDTO, hnone]
        simp [ht]
      · rw [isTestPlanRoot_applyMeta]
        rfl
      · rw [elemName_applyMeta]
        rfl
    · intro ht
      rw [fromDTO, hnone]
      simp [ht]
  · intro e he
    rw [fromDTO] at he
    cases hfa : factoryApply t n props with
    | some e0 =>
      rw [hfa] at he
      simp only [Except.ok.injEq] at he
      rw [← he, childList_applyMeta, factoryApply_childList t n props e0 hfa,
        loadChildrenList_eq_filterMap]
      rfl
    | none =>
      rw [hfa] at he
      by_cases ht : t = "TestPlan"
      · rw [if_pos ht] at he
        simp only [Except.ok.injEq] at he
        rw [← he, childList_applyMeta, loadChildrenList_eq_filterMap]
        rfl
      · rw [if_neg ht] at he
        exact Except.noConfusion he

/-- Witness for C8: the unknown tag Wombat fails with the
unknown-element-type error. -/
theorem spec_C8_unknown_type_witness :
    fromDTO (TestElementDTO.mk "Wombat" "" "w" none [] []) =
      .error "unknown element type: Wombat" :=
  ((spec_C8_unknown_type (TestElementDTO.mk "Wombat" "" "w" none [] [])).1
    (by decide)).2 (by decide)


/-! ## Claim C1: single-run exclusion -/

/-- C1: single-run exclusion.  A /run while running returns 409 with the
already-running error and leaves the state untouched; a /run while idle
sets running and answers 202 started; /stop clears running
unconditionally; the completion path (setStopped) clears running, cancel
and the plan name exactly when the stored aggregator is still the same
instance, and does nothing otherwise. -/
theorem spec_C1_single_run_exclusion (s : ServerState) (planName : String) (agg : Nat) :
    (s.running = true →
      handleRun s (.ok planName) = (s, ⟨409, ErrAlreadyRunning ++ "\n"⟩)) ∧
    (s.running = false →
      (handleRun s (.ok planName)).1.running = true ∧
      (handleRun s (.ok planName)).2 = ⟨202, "started"⟩) ∧
    (serverStop s).state.running = false ∧
    (s.stats = some agg →
      setStopped s agg =
        { s with running := false, cancel := none, currentPlanName := "" }) ∧
    (s.stats ≠ some agg → setStopped s agg = s) := by
  refine ⟨?_, ?_, rfl, ?_, ?_⟩
  · intro h
    simp [handleRun, serverStart, h, ErrAlreadyRunning]
  · intro h
    constructor <;> simp [handleRun, serverStart, h]
  · intro h
    simp [setStopped, h]
  · intro h
    simp [setStopped, h]

/-- Witness for C1 at concrete states: a running server rejects /run with
409 unchanged; an idle one starts; completion clears state only for the
matching aggregator. -/
theorem spec_C1_single_run_exclusion_witness :
    handleRun ⟨true, some 3, some 7, "x", 4⟩ (.ok "p")
        = (⟨true, some 3, some 7, "x", 4⟩, ⟨409, "test is already running\n"⟩) ∧
    (handleRun ⟨false, none, none, "", 0⟩ (.ok "p")).1.running = true ∧
    setStopped ⟨true, some 3, some 7, "x", 4⟩ 7 = ⟨false, none, some 7, "", 4⟩ ∧
    setStopped ⟨true, some 3, some 7, "x", 4⟩ 9 = ⟨true, some 3, some 7, "x", 4⟩ :=
  ⟨(spec_C1_single_run_exclusion ⟨true, some 3, some 7, "x", 4⟩ "p" 7).1 rfl,
   ((spec_C1_single_run_exclusion ⟨false, none, none, "", 0⟩ "p" 0).2.1 rfl).1,
   (spec_C1_single_run_exclusion ⟨true, some 3, some 7, "x", 4⟩ "p" 7).2.2.2.1 rfl,
   (spec_C1_single_run_exclusion ⟨true, some 3, some 7, "x", 4⟩ "p" 9).2.2.2.2 (by decide)⟩

/-! ## Claim C9: admin restart gating -/

/-- C9: admin restart gating for a POST with a well-formed (or absent)
body: 403 when remote restart is disabled; else 401 when a token is
configured and the trimmed header differs from it; else 400 when both the
request command and the configured default are empty; else 202 restart
scheduled, with the resolved command (request command when nonempty, else
the configured default) handed to asynchronous execution only after the
response. -/
theorem spec_C9_admin_restart_gating (cfg : RestartConfig) (req : RestartRequest)
    (hpost : req.method = "POST") (hbody : req.bodyErr = none) :
    (cfg.enableRemoteRestart = false →
      handleRemoteRestart cfg req = (⟨403, "remote restart is disabled\n"⟩, none)) ∧
    (cfg.enableRemoteRestart = true →
      goTrimSpace cfg.restartToken ≠ "" →
      goTrimSpace req.headerToken ≠ goTrimSpace cfg.restartToken →
      handleRemoteRestart cfg req = (⟨401, "invalid admin token\n"⟩, none)) ∧
    (cfg.enableRemoteRestart = true →
      (goTrimSpace cfg.restartToken = "" ∨
        goTrimSpace req.headerToken = goTrimSpace cfg.restartToken) →
      goTrimSpace req.bodyCommand = "" → cfg.restartCommand = "" →
      handleRemoteRestart cfg req = (⟨400, "restart command is empty\n"⟩, none)) ∧
    (cfg.enableRemoteRestart = true →
      (goTrimSpace cfg.restartToken = "" ∨
        goTrimSpace req.headerToken = goTrimSpace cfg.restartToken) →
      goTrimSpace req.bodyCommand ≠ "" →
      handleRemoteRestart cfg req =
        (⟨202, "restart scheduled"⟩, some (goTrimSpace req.bodyCommand))) ∧
    (cfg.enableRemoteRestart = true →
      (goTrimSpace cfg.restartToken = "" ∨
        goTrimSpace req.headerToken = goTrimSpace cfg.restartToken) →
      goTrimSpace req.bodyCommand = "" → cfg.restartCommand ≠ "" →
      handleRemoteRestart cfg req = (⟨202, "restart scheduled"⟩, some cfg.restartCommand)) := by
  have hauthneg : ∀ hau : goTrimSpace cfg.restartToken = "" ∨
      goTrimSpace req.headerToken = goTrimSpace cfg.restartToken,
      ¬(goTrimSpace cfg.restartToken ≠ "" ∧
        goTrimSpace req.headerToken ≠ goTrimSpace cfg.restartToken) := by
    intro hau hcon
    rcases hau with h | h
    · exact hcon.1 h
    · exact hcon.2 h
  refine ⟨?_, ?_, ?_, ?_, ?_⟩
  · intro h
    simp [handleRemoteRestart, hpost, h]
  · intro h1 h2 h3
    simp [handleRemoteRestart, hpost, h1, h2, h3, hbody]
  · intro h1 hau h2 h3
    simp [handleRemoteRestart, hpost, h1, hauthneg hau, hbody, h2, h3]
  · intro h1 hau h2
    simp [handleRemoteRestart, hpost, h1, hauthneg hau, hbody, h2]
  · intro h1 hau h2 h3
    simp [handleRemoteRestart, hpost, h1, hauthneg hau, hbody, h2, h3]

/-- Witness for C9 at a concrete configuration (enabled, token t, no
default command) and concrete requests exercising the 403, 401, 400 and
202 arms. -/
theorem spec_C9_admin_restart_gating_witness :
    handleRemoteRestart ⟨false, "t", ""⟩ ⟨"POST", "", "", none⟩
        = (⟨403, "remote restart is disabled\n"⟩, none) ∧
    handleRemoteRestart ⟨true, "t", ""⟩ ⟨"POST", "", "", none⟩
        = (⟨401, "invalid admin token\n"⟩, none) ∧
    handleRemoteRestart ⟨true, "t", ""⟩ ⟨"POST", "t", "", none⟩
        = (⟨400, "restart command is empty\n"⟩, none) ∧
    handleRemoteRestart ⟨true, "t", ""⟩ ⟨"POST", "t", "true", none⟩
        = (⟨202, "restart scheduled"⟩, some "true") :=
  ⟨(spec_C9_admin_restart_gating ⟨false, "t", ""⟩ ⟨"POST", "", "", none⟩ rfl rfl).1 rfl,
   (spec_C9_admin_restart_gating ⟨true, "t", ""⟩ ⟨"POST", "", "", none⟩ rfl rfl).2.1 rfl
     (by decide) (by decide),
   (spec_C9_admin_restart_gating ⟨true, "t", ""⟩ ⟨"POST", "t", "", none⟩ rfl rfl).2.2.1 rfl
     (Or.inr (by decide)) (by decide) rfl,
   (spec_C9_admin_restart_gating ⟨true, "t", ""⟩ ⟨"POST", "t", "true", none⟩ rfl rfl).2.2.2.1 rfl
     (Or.inr (by decide)) (by decide)⟩

/-! ## Claim C4: sampler rate selection -/

/-- C4: sampler rate selection.  The rate gate computes the base rate as
the spec prescribes (TargetRPS if non-zero, else the float64 DefaultRPS
context variable, else 0), the effective rate as base times the profile
scale, and whenever base is positive and the effective rate non-positive
the execution returns immediately: no request phase, no reported result,
no limiter. -/
theorem spec_C4_sampler_rate_selection (samplerTargetRPS : Rat)
    (vars : List (String × CtxVal)) (limiterAllow : Bool) :
    (httpSamplerRateGate samplerTargetRPS vars limiterAllow).baseRPS
        = specBaseRate samplerTargetRPS vars ∧
    (httpSamplerRateGate samplerTargetRPS vars limiterAllow).targetRPS
        = specBaseRate samplerTargetRPS vars * getProfileScale vars ∧
    (specBaseRate samplerTargetRPS vars > 0 ∧
        specBaseRate samplerTargetRPS vars * getProfileScale vars ≤ 0 →
      httpSamplerRateGate samplerTargetRPS vars limiterAllow =
        ⟨specBaseRate samplerTargetRPS vars,
         specBaseRate samplerTargetRPS vars * getProfileScale vars, false, false⟩) := by
  have hbase :
      (if samplerTargetRPS = 0 then
        (match mapLookup vars "DefaultRPS" with
          | some (.cFloat v) => v
          | _ => 0)
      else samplerTargetRPS) = specBaseRate samplerTargetRPS vars := by
    unfold specBaseRate
    by_cases h : samplerTargetRPS = 0 <;> simp [h]
  refine ⟨?_, ?_, ?_⟩
  · simp only [httpSamplerRateGate, hbase]
    split_ifs <;> rfl
  · simp only [httpSamplerRateGate, hbase]
    split_ifs <;> rfl
  · intro hcond
    simp only [httpSamplerRateGate, hbase]
    rw [if_pos hcond]

/-- Witness for C4: TargetRPS five with a zero profile scale makes the
sampler a no-op for the invocation. -/
theorem spec_C4_sampler_rate_selection_witness :
    httpSamplerRateGate 5 [("RPSProfileScale", .cScale 0)] true =
      ⟨5, 0, false, false⟩ := by
  have h := (spec_C4_sampler_rate_selection 5 [("RPSProfileScale", .cScale 0)] true).2.2
    (by constructor <;> norm_num [specBaseRate, getProfileScale, mapLookup])
  rw [h]
  norm_num [specBaseRate, getProfileScale, mapLookup]

/-! ## Claim C6: controller error propagation -/

theorem runSiblings_halt (pre : List ChildBeh) (c : ChildBeh) (post : List ChildBeh)
    (e : ExecErr)
    (hpre : ∀ p ∈ pre, p.result = none ∨ (p.enabled && p.executable) = false)
    (hc : (c.enabled && c.executable) = true) (he : c.result = some e) :
    runSiblings (pre ++ c :: post) =
      (pre.map (fun b => b.enabled && b.executable) ++
        true :: List.replicate post.length false, some e) := by
  induction pre with
  | nil =>
    simp only [List.nil_append, List.map_nil]
    rw [runSiblings]
    simp [hc, he]
  | cons p rest ih =>
    have hrec := ih (fun q hq => hpre q (List.mem_cons_of_mem p hq))
    rw [List.cons_append, runSiblings]
    cases hpe : (p.enabled && p.executable) with
    | false =>
      rw [if_neg Bool.false_ne_true]
      simp [hpe, hrec]
    | true =>
      rw [if_pos rfl]
      rcases hpre p (List.mem_cons_self p rest) with hp | hp
      · rw [hp]
        simp [hpe, hrec]
      · rw [hp] at hpe
        exact absurd hpe (by simp)

theorem threadGroupRunChildren_no_cancel (children : List ChildBeh) :
    threadGroupRunChildren none children =
      (children.map (fun b => b.enabled && b.executable), false) := by
  induction children with
  | nil => rfl
  | cons c rest ih =>
    rw [threadGroupRunChildren]
    by_cases hc : (c.enabled && c.executable) = true
    · cases hr : c.result <;> simp [hc, hr, ih]
    · simp [hc, ih]

/-- C6 counterexample: inside an If controller, a first child failing with
a non-cancellation error halts the remaining sibling (the second, healthy
child is never executed), refuting the claim that only cancellation-caused
errors terminate the controller invocation. -/
theorem spec_C6_counterexample :
    ifControllerExecute true
        [⟨true, true, some (.other "boom")⟩, ⟨true, true, none⟩] =
      ([true, false], some (.other "boom")) ∧
    (ifControllerExecute true
        [⟨true, true, some (.other "boom")⟩, ⟨true, true, none⟩]).1 ≠ [true, true] := by
  constructor <;> decide

/-- C6 amended: within Loop and If controllers, any child error, of
whatever kind, terminates the controller invocation (the remaining
siblings are skipped) and is returned to the caller; only at the
thread-group worker level are non-cancellation errors swallowed: with an
uncancelled context the worker executes every enabled executable child
regardless of errors and does not halt. -/
theorem spec_C6_amended_error_propagation (pre : List ChildBeh) (c : ChildBeh)
    (post : List ChildBeh) (e : ExecErr) (children : List ChildBeh)
    (hpre : ∀ p ∈ pre, p.result = none ∨ (p.enabled && p.executable) = false)
    (hc : (c.enabled && c.executable) = true) (he : c.result = some e) :
    ifControllerExecute true (pre ++ c :: post) =
      (pre.map (fun b => b.enabled && b.executable) ++
        true :: List.replicate post.length false, some e) ∧
    loopControllerExecute 1 none (pre ++ c :: post) =
      ([pre.map (fun b => b.enabled && b.executable) ++
        true :: List.replicate post.length false], some e) ∧
    (threadGroupRunChildren none children).2 = false ∧
    (threadGroupRunChildren none children).1 =
      children.map (fun b => b.enabled && b.executable) := by
  have hrs := runSiblings_halt pre c post e hpre hc he
  have htg := threadGroupRunChildren_no_cancel children
  refine ⟨?_, ?_, ?_, ?_⟩
  · simp [ifControllerExecute, hrs]
  · rw [loopControllerExecute]
    simp [hrs]
  · rw [htg]
  · rw [htg]

/-- Witness for C6 amended: a disabled first sibling, an erroring second
child, a skipped third; and a thread-group iteration running both children
despite the first one failing. -/
theorem spec_C6_amended_error_propagation_witness :
    ifControllerExecute true
        [⟨false, true, none⟩, ⟨true, true, some (.other "x")⟩, ⟨true, true, none⟩] =
      ([false, true, false], some (.other "x")) ∧
    loopControllerExecute 1 none
        [⟨false, true, none⟩, ⟨true, true, some (.other "x")⟩, ⟨true, true, none⟩] =
      ([[false, true, false]], some (.other "x")) ∧
    (threadGroupRunChildren none
        [⟨true, true, some (.other "y")⟩, ⟨true, true, none⟩]).2 = false ∧
    (threadGroupRunChildren none
        [⟨true, true, some (.other "y")⟩, ⟨true, true, none⟩]).1 = [true, true] :=
  spec_C6_amended_error_propagation [⟨false, true, none⟩] ⟨true, true, some (.other "x")⟩
    [⟨true, true, none⟩] (.other "x")
    [⟨true, true, some (.other "y")⟩, ⟨true, true, none⟩]
    (by decide) (by decide) (by decide)


/-! ## Claim C3: aggregator totals and snapshots -/

theorem mapLookup_mapSet_self (m : List (String × Metric)) (k : String) (v : Metric) :
    mapLookup (mapSet m k v) k = some v := by
  induction m with
  | nil => simp [mapSet, mapLookup]
  | cons p rest ih =>
    obtain ⟨k0, v0⟩ := p
    by_cases h : k0 = k
    · simp [mapSet, h, mapLookup]
    · simp [mapSet, h, mapLookup, ih]

theorem mapLookup_append_of_some {β : Type} (m l : List (String × β)) (k : String) (v : β)
    (h : mapLookup m k = some v) : mapLookup (m ++ l) k = some v := by
  induction m with
  | nil => simp [mapLookup] at h
  | cons p rest ih =>
    obtain ⟨k0, v0⟩ := p
    rw [List.cons_append, mapLookup]
    rw [mapLookup] at h
    by_cases h0 : k0 = k
    · simpa [h0] using h
    · rw [if_neg h0] at h ⊢
      exact ih h

theorem mapLookup_append_self {β : Type} (m : List (String × β)) (k : String) (v : β)
    (h : mapLookup m k = none) : mapLookup (m ++ [(k, v)]) k = some v := by
  induction m with
  | nil => simp [mapLookup]
  | cons p rest ih =>
    obtain ⟨k0, v0⟩ := p
    rw [List.cons_append, mapLookup]
    rw [mapLookup] at h
    by_cases h0 : k0 = k
    · rw [if_pos h0] at h
      exact Option.noConfusion h
    · rw [if_neg h0] at h ⊢
      exact ih h

theorem mapLookup_eq_none_of_keys {β : Type} (m : List (String × β)) (k : String)
    (h : ∀ p ∈ m, p.1 ≠ k) : mapLookup m k = none := by
  induction m with
  | nil => rfl
  | cons p rest ih =>
    obtain ⟨k0, v0⟩ := p
    rw [mapLookup, if_neg (h (k0, v0) (List.mem_cons_self _ _))]
    exact ih (fun q hq => h q (List.mem_cons_of_mem _ hq))

theorem mapSet_of_absent (m : List (String × Metric)) (k : String) (v : Metric)
    (h : ∀ p ∈ m, p.1 ≠ k) : mapSet m k v = m ++ [(k, v)] := by
  induction m with
  | nil => rfl
  | cons p rest ih =>
    obtain ⟨k0, v0⟩ := p
    rw [mapSet, if_neg (h (k0, v0) (List.mem_cons_self _ _)),
      ih (fun q hq => h q (List.mem_cons_of_mem _ hq)), List.cons_append]

theorem publishLoop_data (s : StatsState) (w : Rat) (ns : List String) :
    (publishLoop s w ns).1 = ns.map (fun n => (n, perSamplerMetric s w n)) := by
  induction ns with
  | nil => rfl
  | cons n rest ih =>
    rw [publishLoop]
    simp [ih]

theorem publishLoop_intervalErrors (s : StatsState) (w : Rat) (ns : List String) :
    (publishLoop s w ns).2.2.1 = (ns.map (lookup0 s.intervalErrors)).sum := by
  induction ns with
  | nil => rfl
  | cons n rest ih =>
    rw [publishLoop]
    simp [ih]

theorem publishLoop_totalCounts (s : StatsState) (w : Rat) (ns : List String) :
    (publishLoop s w ns).2.2.2.2.1 = (ns.map (lookup0 s.totalCounts)).sum := by
  induction ns with
  | nil => rfl
  | cons n rest ih =>
    rw [publishLoop]
    simp [ih]

theorem publishLoop_totalErrors (s : StatsState) (w : Rat) (ns : List String) :
    (publishLoop s w ns).2.2.2.2.2 = (ns.map (lookup0 s.totalErrorsMap)).sum := by
  induction ns with
  | nil => rfl
  | cons n rest ih =>
    rw [publishLoop]
    simp [ih]

/-- C3: aggregator totals.  On every published tick the synthesized Total
entry exists and its Errors, TotalErrors and TotalRequests are the sums of
the per-sampler interval error, cumulative error and cumulative request
counters over the known samplers (equivalently, as long as no sampler is
itself named Total, the sums of the published per-sampler entries); and
Snapshot always contains the Total key and reproduces every entry of the
latest published snapshot (the returned map is a fresh copy, so mutating
it cannot affect the aggregator state, which Snapshot leaves unchanged). -/
theorem spec_C3_aggregator_totals (s : StatsState) :
    (∃ t, mapLookup (publishIntervalSnapshot s).latest "Total" = some t ∧
      t.errors = (s.knownSamplers.map (lookup0 s.intervalErrors)).sum ∧
      t.totalErrors = (s.knownSamplers.map (lookup0 s.totalErrorsMap)).sum ∧
      t.totalRequests = (s.knownSamplers.map (lookup0 s.totalCounts)).sum) ∧
    (∃ t2, mapLookup (Snapshot s) "Total" = some t2) ∧
    (∀ k v, mapLookup s.latest k = some v → mapLookup (Snapshot s) k = some v) ∧
    ("Total" ∉ s.knownSamplers →
      ∃ t, mapLookup (publishIntervalSnapshot s).latest "Total" = some t ∧
        t.errors =
          (((publishIntervalSnapshot s).latest.filter
            (fun p => p.1 != "Total")).map (fun p => p.2.errors)).sum ∧
        t.totalErrors =
          (((publishIntervalSnapshot s).latest.filter
            (fun p => p.1 != "Total")).map (fun p => p.2.totalErrors)).sum) := by
  refine ⟨?_, ?_, ?_, ?_⟩
  · simp only [publishIntervalSnapshot]
    refine ⟨_, mapLookup_mapSet_self _ _ _, ?_, ?_, ?_⟩
    · exact publishLoop_intervalErrors s _ s.knownSamplers
    · exact publishLoop_totalErrors s _ s.knownSamplers
    · exact publishLoop_totalCounts s _ s.knownSamplers
  · cases h : mapLookup s.latest "Total" with
    | some t =>
      refine ⟨t, ?_⟩
      unfold Snapshot
      rw [h]
      exact h
    | none =>
      refine ⟨⟨0, 0, 0, 0, 0⟩, ?_⟩
      unfold Snapshot
      rw [h]
      exact mapLookup_append_self s.latest "Total" ⟨0, 0, 0, 0, 0⟩ h
  · intro k v hv
    unfold Snapshot
    cases h : mapLookup s.latest "Total" with
    | some t => exact hv
    | none => exact mapLookup_append_of_some _ _ _ _ hv
  · intro hT
    simp only [publishIntervalSnapshot]
    have hkeys : ∀ p ∈ (publishLoop s (if (s.reportIntervalNs : Rat) / 1000000000 ≤ 0 then 1
          else (s.reportIntervalNs : Rat) / 1000000000) s.knownSamplers).1, p.1 ≠ "Total" := by
      rw [publishLoop_data]
      intro p hp
      simp only [List.mem_map] at hp
      obtain ⟨n, hn, rfl⟩ := hp
      exact fun hEq => hT (hEq ▸ hn)
    rw [mapSet_of_absent _ _ _ hkeys]
    have hfilter : ∀ (l : List (String × Metric)) (t0 : Metric), (∀ p ∈ l, p.1 ≠ "Total") →
        (l ++ [("Total", t0)]).filter (fun p => p.1 != "Total") = l := by
      intro l t0 hl
      rw [List.filter_append]
      have h2 : List.filter (fun p => p.1 != "Total") [("Total", t0)] = [] := by
        simp [List.filter]
      rw [h2, List.append_nil]
      exact List.filter_eq_self.mpr (fun p hp => by simpa using hl p hp)
    refine ⟨_, mapLookup_append_self _ _ _ (mapLookup_eq_none_of_keys _ _ hkeys), ?_, ?_⟩
    · rw [hfilter _ _ hkeys, publishLoop_data, List.map_map]
      exact publishLoop_intervalErrors s _ s.knownSamplers
    · rw [hfilter _ _ hkeys, publishLoop_data, List.map_map]
      exact publishLoop_totalErrors s _ s.knownSamplers

/-- Witness for C3 at a concrete aggregator state with two samplers. -/
theorem spec_C3_aggregator_totals_witness :
    (∃ t, mapLookup (publishIntervalSnapshot
        ⟨[("a", 3), ("b", 2)], [("a", 1), ("b", 2)], [], [("a", 5), ("b", 2)],
         [("a", 2), ("b", 2)], [], ["a", "b"], [], 1000000000⟩).latest "Total" = some t ∧
      t.errors = 3 ∧ t.totalErrors = 4 ∧ t.totalRequests = 7) ∧
    (∃ t2, mapLookup (Snapshot
        ⟨[("a", 3), ("b", 2)], [("a", 1), ("b", 2)], [], [("a", 5), ("b", 2)],
         [("a", 2), ("b", 2)], [], ["a", "b"], [], 1000000000⟩) "Total" = some t2) := by
  have h := spec_C3_aggregator_totals
    ⟨[("a", 3), ("b", 2)], [("a", 1), ("b", 2)], [], [("a", 5), ("b", 2)],
     [("a", 2), ("b", 2)], [], ["a", "b"], [], 1000000000⟩
  refine ⟨?_, h.2.1⟩
  obtain ⟨t, ht, he, hte, htr⟩ := h.1
  exact ⟨t, ht, by rw [he]; decide, by rw [hte]; decide, by rw [htr]; decide⟩


/-! ## Claim C2: DTO round trip -/

theorem ratToGoInt_intCast (n : Int) : ratToGoInt (n : Rat) = n := by
  simp [ratToGoInt, Rat.num_intCast, Rat.den_intCast]

theorem durationMilliseconds_mul (m : Int) :
    durationMilliseconds (m * 1000000) = m := by
  unfold durationMilliseconds
  exact Int.mul_tdiv_cancel m (by norm_num)

theorem collectStrings_map_vStr (xs : List String) :
    collectStrings (xs.map GoVal.vStr) = xs := by
  induction xs with
  | nil => rfl
  | cons x rest ih => simp [collectStrings, ih]

theorem rpsBlockProps_requantized (b : RPSProfileBlock) :
    rpsBlockProps ⟨durationMilliseconds b.rampUpNs * 1000000,
      durationMilliseconds b.stepDurationNs * 1000000, b.profilePercent⟩ =
      rpsBlockProps b := by
  simp [rpsBlockProps, durationMilliseconds_mul]

theorem parseBlockItems_normalized (blocks : List RPSProfileBlock) :
    parseBlockItems (jsonNormalizeMapSlice (blocks.map rpsBlockProps)) =
      blocks.map (fun b =>
        ⟨durationMilliseconds b.rampUpNs * 1000000,
         durationMilliseconds b.stepDurationNs * 1000000, b.profilePercent⟩) := by
  induction blocks with
  | nil => rfl
  | cons b rest ih =>
    simp [jsonNormalizeMapSlice, jsonNormalizeKVs, jsonNormalize, rpsBlockProps,
      parseBlockItems, GetInt, GetFloat, mapLookup, ratToGoInt_intCast, ih]

/-- C2 counterexample: the in-memory composition fromDTO of toDTO loses an
RPSThreadGroup's ProfileBlocks (GetProps stores them as a Go
[]map[string]interface{}, which parseRPSProfileBlocks only accepts as
[]interface{}, so the type assertion fails and yields nil), refuting the
claim that fromDTO(toDTO(root)) preserves the serialized properties. -/
theorem spec_C2_dto_roundtrip_counterexample :
    fromDTO (toDTO (Elem.rpsThreadGroup "i1" "g" true 10 10
        [⟨0, 60000000000, 100⟩] 0 [])) =
      .ok (Elem.rpsThreadGroup "i1" "g" true 10 10 [] 0 []) ∧
    toDTO (Elem.rpsThreadGroup "i1" "g" true 10 10 [] 0 []) ≠
      toDTO (Elem.rpsThreadGroup "i1" "g" true 10 10 [⟨0, 60000000000, 100⟩] 0 []) := by
  constructor
  · rfl
  · intro h
    have hprops := congrArg TestElementDTO.dtoProps h
    simp [toDTO, Elem.getProps, rpsBlockProps, TestElementDTO.dtoProps] at hprops

mutual

theorem roundTripElem (e : Elem) (h : idsNonempty e = true) :
    ∃ e2, fromDTO (jsonNormalizeDTO (toDTO e)) = .ok e2 ∧ toDTO e2 = toDTO e := by
  cases e with
  | testPlan i n en cs =>
    rw [idsNonempty, Bool.and_eq_true] at h
    obtain ⟨hid, hcs⟩ := h
    have hid2 : i ≠ "" := by simpa using hid
    obtain ⟨cs2, hload, hlist⟩ := roundTripList cs hcs
    refine ⟨Elem.testPlan i n en cs2, ?_, ?_⟩
    · simp [toDTO, jsonNormalizeDTO, jsonNormalizeKVs, fromDTO, factoryApply, hload,
        applyMeta, hid2, Elem.setID, Elem.setEnabled, Elem.appendChildren]
    · simp [toDTO, Elem.getProps, hlist]
  | simpleThreadGroup i n en u it r cs =>
    rw [idsNonempty, Bool.and_eq_true] at h
    obtain ⟨hid, hcs⟩ := h
    have hid2 : i ≠ "" := by simpa using hid
    obtain ⟨cs2, hload, hlist⟩ := roundTripList cs hcs
    refine ⟨Elem.simpleThreadGroup i n en u it 0 cs2, ?_, ?_⟩
    · simp [toDTO, jsonNormalizeDTO, jsonNormalizeKVs, jsonNormalize, Elem.getProps,
        fromDTO, factoryApply, GetInt, mapLookup, ratToGoInt_intCast, hload,
        applyMeta, hid2, Elem.setID, Elem.setEnabled, Elem.appendChildren]
    · simp [toDTO, Elem.getProps, hlist]
  | rpsThreadGroup i n en u q b g cs =>
    rw [idsNonempty, Bool.and_eq_true] at h
    obtain ⟨hid, hcs⟩ := h
    have hid2 : i ≠ "" := by simpa using hid
    obtain ⟨cs2, hload, hlist⟩ := roundTripList cs hcs
    refine ⟨Elem.rpsThreadGroup i n en u q
      (b.map (fun blk => ⟨durationMilliseconds blk.rampUpNs * 1000000,
        durationMilliseconds blk.stepDurationNs * 1000000, blk.profilePercent⟩))
      (durationMilliseconds g * 1000000) cs2, ?_, ?_⟩
    · simp [toDTO, jsonNormalizeDTO, jsonNormalizeKVs, jsonNormalize, Elem.getProps,
        fromDTO, factoryApply, GetInt, GetFloat, mapLookup, ratToGoInt_intCast,
        parseRPSProfileBlocks, parseBlockItems_normalized, hload,
        applyMeta, hid2, Elem.setID, Elem.setEnabled, Elem.appendChildren]
    · simp [toDTO, Elem.getProps, hlist, List.map_map, Function.comp,
        rpsBlockProps_requantized, durationMilliseconds_mul]
  | httpSampler i n en url m bd t x cs =>
    rw [idsNonempty, Bool.and_eq_true] at h
    obtain ⟨hid, hcs⟩ := h
    have hid2 : i ≠ "" := by simpa using hid
    obtain ⟨cs2, hload, hlist⟩ := roundTripList cs hcs
    refine ⟨Elem.httpSampler i n en url m bd t x cs2, ?_, ?_⟩
    · simp [toDTO, jsonNormalizeDTO, jsonNormalizeKVs, jsonNormalize, Elem.getProps,
        fromDTO, factoryApply, GetString, GetFloat, GetStringSlice, mapLookup,
        collectStrings_map_vStr, hload,
        applyMeta, hid2, Elem.setID, Elem.setEnabled, Elem.appendChildren]
    · simp [toDTO, Elem.getProps, hlist]
  | loopController i n en l cs =>
    rw [idsNonempty, Bool.and_eq_true] at h
    obtain ⟨hid, hcs⟩ := h
    have hid2 : i ≠ "" := by simpa using hid
    obtain ⟨cs2, hload, hlist⟩ := roundTripList cs hcs
    refine ⟨Elem.loopController i n en l cs2, ?_, ?_⟩
    · simp [toDTO, jsonNormalizeDTO, jsonNormalizeKVs, jsonNormalize, Elem.getProps,
        fromDTO, factoryApply, GetInt, mapLookup, ratToGoInt_intCast, hload,
        applyMeta, hid2, Elem.setID, Elem.setEnabled, Elem.appendChildren]
    · simp [toDTO, Elem.getProps, hlist]
  | ifController i n en cs =>
    rw [idsNonempty, Bool.and_eq_true] at h
    obtain ⟨hid, hcs⟩ := h
    have hid2 : i ≠ "" := by simpa using hid
    obtain ⟨cs2, hload, hlist⟩ := roundTripList cs hcs
    refine ⟨Elem.ifController i n en cs2, ?_, ?_⟩
    · simp [toDTO, jsonNormalizeDTO, jsonNormalizeKVs, Elem.getProps,
        fromDTO, factoryApply, hload,
        applyMeta, hid2, Elem.setID, Elem.setEnabled, Elem.appendChildren]
    · simp [toDTO, Elem.getProps, hlist]
  | pauseController i n en d cs =>
    rw [idsNonempty, Bool.and_eq_true] at h
    obtain ⟨hid, hcs⟩ := h
    have hid2 : i ≠ "" := by simpa using hid
    obtain ⟨cs2, hload, hlist⟩ := roundTripList cs hcs
    refine ⟨Elem.pauseController i n en (durationMilliseconds d * 1000000) cs2, ?_, ?_⟩
    · simp [toDTO, jsonNormalizeDTO, jsonNormalizeKVs, jsonNormalize, Elem.getProps,
        fromDTO, factoryApply, GetInt, mapLookup, ratToGoInt_intCast, hload,
        applyMeta, hid2, Elem.setID, Elem.setEnabled, Elem.appendChildren]
    · simp [toDTO, Elem.getProps, hlist, durationMilliseconds_mul]

theorem roundTripList (cs : List Elem) (h : idsNonemptyList cs = true) :
    ∃ cs2, loadChildrenList (jsonNormalizeDTOList (toDTOList cs)) = cs2 ∧
      toDTOList cs2 = toDTOList cs := by
  cases cs with
  | nil => exact ⟨[], rfl, rfl⟩
  | cons c rest =>
    rw [idsNonemptyList, Bool.and_eq_true] at h
    obtain ⟨h1, h2⟩ := h
    obtain ⟨e2, he2, hd2⟩ := roundTripElem c h1
    obtain ⟨cs2, hcs2, hl2⟩ := roundTripList rest h2
    refine ⟨e2 :: cs2, ?_, ?_⟩
    · rw [toDTOList, jsonNormalizeDTOList, loadChildrenList, he2, hcs2]
    · rw [toDTOList, toDTOList, hd2, hl2]

end

/-- C2 amended: the round trip holds once the DTO passes through JSON
encoding, as every plan sent to an agent does: for every tree whose ids
are nonempty, fromDTO applied to the JSON-normalized toDTO succeeds and
yields a tree whose serialization equals the original serialization:
same shape, ids, names, enable flags, serialized properties (the
RPSThreadGroup ProfileBlocks and GracefulShutdown included) and child
order.  The in-memory composition without JSON loses RPSThreadGroup
ProfileBlocks and GracefulShutdown and the PauseController duration,
because the property readers accept only JSON-decoded dynamic types. -/
theorem spec_C2_dto_roundtrip_amended (e : Elem) (h : idsNonempty e = true) :
    ∃ e2, fromDTO (jsonNormalizeDTO (toDTO e)) = .ok e2 ∧ toDTO e2 = toDTO e :=
  roundTripElem e h

/-- Witness for C2 at a concrete two-level plan with an RPSThreadGroup
carrying a profile block and a graceful shutdown. -/
theorem spec_C2_dto_roundtrip_amended_witness :
    ∃ e2, fromDTO (jsonNormalizeDTO (toDTO
        (Elem.testPlan "r" "plan" true
          [Elem.rpsThreadGroup "t" "tg" true 10 10 [⟨0, 60000000000, 100⟩] 500000000
            [Elem.httpSampler "s" "s1" false "http://h" "GET" "" 0 ["tok"] []]]))) =
      .ok e2 ∧
    toDTO e2 = toDTO
      (Elem.testPlan "r" "plan" true
        [Elem.rpsThreadGroup "t" "tg" true 10 10 [⟨0, 60000000000, 100⟩] 500000000
          [Elem.httpSampler "s" "s1" false "http://h" "GET" "" 0 ["tok"] []]]) :=
  spec_C2_dto_roundtrip_amended _ (by decide)

end Perfolizer
